import Mathlib

/-!
Verification of the family-grouping and merge-ordering engine of the
Email Family PDF Merger (src/EmailFamilyPDFMerger_v1_0_0.py).

The Python source is shallowly embedded as executable Lean functions:

* `splitext`, `pySplitDot`, `pyInt` model `os.path.splitext`, `str.split "."`
  and `int(...)` (ASCII digits, optional sign, underscore separators,
  surrounding ASCII whitespace), on which `extract_family_key` and
  `extract_suffix_parts` are defined exactly as in the source.
* The sort key used by Pass 2 (`key=lambda f: (len(parts f), parts f)`) is
  modelled by `sortKeyLE`; Python's stable `list.sort` is modelled by the
  stable `List.mergeSort`.  Python raises `TypeError` when an `int` token
  meets a `str` token; `tokenLE` totalises that case (`int` before `str`),
  and the theorems about sorting carry the comparability hypothesis of the
  claim, under which the totalisation is never exercised.
* `merge_pdfs_worker` is modelled by `run`, a pure function of an
  environment `Env` giving the outcome of every effectful operation the
  worker performs (directory creation, `os.listdir`, `os.path.isdir`,
  placeholder synthesis, `os.path.exists`, `pikepdf.Pdf.open` page counts,
  `Pdf.save`, `shutil.copy2`, the CSV write, `os.unlink`).  Log lines are
  reproduced verbatim except that interpolated exception texts are elided;
  `os.path.join` is modelled with the `/` separator.  Python dicts preserve
  insertion order, modelled by association lists (`assocAppend`,
  `assocSet`); the `placeholder_files_to_delete` set is modelled as a
  duplicate-free insertion-ordered list (`insertNew`).
  `create_placeholder_pdf` receives the item's extension-stripped base name
  as its rendered label; its success or failure is modelled per item by
  `Env.synth` applied to the item's (unique) filename.
-/

namespace EFPM

/-! ## Identifier parser -/

/-- Index of the last `'.'` in a character list, if any. -/
def lastDotIdx : List Char → Option Nat
  | [] => none
  | c :: rest =>
    match lastDotIdx rest with
    | some i => some (i + 1)
    | none => if c = '.' then some 0 else none

/-- Model of `os.path.splitext` on a bare filename (no path separators):
split at the last dot unless every character before it is a dot. -/
def splitext (p : String) : String × String :=
  match lastDotIdx p.data with
  | none => (p, "")
  | some i =>
    if (p.data.take i).all (fun c => c = '.') then (p, "")
    else (⟨p.data.take i⟩, ⟨p.data.drop i⟩)

/-- Model of Python `str.split "."`. -/
def pySplitDot : List Char → List (List Char)
  | [] => [[]]
  | c :: rest =>
    if c = '.' then [] :: pySplitDot rest
    else
      match pySplitDot rest with
      | [] => [[c]]
      | t :: ts => (c :: t) :: ts

/-- ASCII whitespace stripped by Python `int(...)`. -/
def isPyWs (c : Char) : Bool :=
  c = ' ' || c = '\t' || c = '\n' || c = '\r' || c = '\x0b' || c = '\x0c'

/-- Digits of a Python integer literal after the first: a single `'_'` may
separate two digits. -/
def pyDigitsAux : List Char → Nat → Option Nat
  | [], acc => some acc
  | ['_'], _ => none
  | '_' :: c :: rest, acc =>
    if c.isDigit then pyDigitsAux rest (acc * 10 + (c.toNat - 48)) else none
  | c :: rest, acc =>
    if c.isDigit then pyDigitsAux rest (acc * 10 + (c.toNat - 48)) else none

/-- Nonempty digit run with optional underscore separators. -/
def pyDigits : List Char → Option Nat
  | [] => none
  | c :: rest => if c.isDigit then pyDigitsAux rest (c.toNat - 48) else none

/-- Model of Python `int(s)` on ASCII input: optional surrounding
whitespace, optional sign, digits with underscore separators. -/
def pyInt (s : String) : Option Int :=
  let l := ((s.data.dropWhile isPyWs).reverse.dropWhile isPyWs).reverse
  match l with
  | '+' :: rest => (pyDigits rest).map (fun n => (n : Int))
  | '-' :: rest => (pyDigits rest).map (fun n => -(n : Int))
  | rest => (pyDigits rest).map (fun n => (n : Int))

/-- A suffix token: an integer when `int(...)` succeeds, else the raw
string. -/
inductive Token where
  | int : Int → Token
  | str : String → Token
deriving DecidableEq, Repr

/-- Conversion of one suffix token (`int(part)` with `ValueError`
fallback). -/
def tokenOf (s : String) : Token :=
  match pyInt s with
  | some n => Token.int n
  | none => Token.str s

/-- Source `extract_family_key`: strip the extension, take the text before
the first remaining `'.'` (`name.split(".")[0]`). -/
def extract_family_key (filename : String) : String :=
  let name := (splitext filename).1
  ⟨(pySplitDot name.data).headD []⟩

/-- Source `extract_suffix_parts`: strip the extension, split on `'.'`;
a single part yields `[]`, otherwise each later part is converted by
`int(...)` when possible. -/
def extract_suffix_parts (filename : String) : List Token :=
  if ((pySplitDot (splitext filename).1.data).map (fun l => (⟨l⟩ : String))).length ≤ 1 then []
  else ((pySplitDot (splitext filename).1.data).map (fun l => (⟨l⟩ : String))).tail.map tokenOf

/-- Modelled from the spec: `FamilyKey(filename)` — strips extension,
returns the text before the first remaining `'.'`. -/
def specFamilyKey (f : String) : String :=
  ⟨(splitext f).1.data.takeWhile (fun c => c != '.')⟩

/-- Modelled from the spec: `OrderKey(filename)` — strips extension; empty
sequence when no `'.'` remains, otherwise the `'.'`-separated tokens after
the family key, each converted to an integer when it parses as one. -/
def specOrderKey (f : String) : List Token :=
  if (splitext f).1.data.all (fun c => c != '.') then []
  else ((pySplitDot (splitext f).1.data).map (fun l => (⟨l⟩ : String))).tail.map tokenOf

/-! ## Merge order -/

/-- Python `<=` on suffix tokens; the mixed `int`/`str` case (a `TypeError`
in Python) is totalised with `int` before `str` and is never exercised
under the comparability hypothesis of the sorting theorem. -/
def tokenLE : Token → Token → Bool
  | Token.int m, Token.int n => decide (m ≤ n)
  | Token.str s, Token.str t => decide (s ≤ t)
  | Token.int _, Token.str _ => true
  | Token.str _, Token.int _ => false

/-- Lexicographic `<=` on token lists (Python list comparison). -/
def keyLE : List Token → List Token → Bool
  | [], _ => true
  | _ :: _, [] => false
  | a :: as, b :: bs => if a = b then keyLE as bs else tokenLE a b

/-- The Pass-2 sort key comparison: ascending by
`(len(extract_suffix_parts f), extract_suffix_parts f)`. -/
def sortKeyLE (a b : String) : Bool :=
  let ka := extract_suffix_parts a
  let kb := extract_suffix_parts b
  decide (ka.length < kb.length) || (decide (ka.length = kb.length) && keyLE ka kb)

/-- The Pass-2 member sort: Python's stable `list.sort` with the tuple
key, modelled by the stable `List.insertionSort` (any two stable sorts of
the same total preorder agree, and `insertionSort` evaluates inside the
kernel). -/
def sortFamily (l : List String) : List String :=
  List.insertionSort (fun a b => sortKeyLE a b = true) l

/-- Strictly-less on tokens as the claim states it: numeric tokens
numerically, string tokens lexicographically, undefined across types. -/
def tokenLT : Token → Token → Prop
  | Token.int m, Token.int n => m < n
  | Token.str s, Token.str t => s < t
  | _, _ => False

/-- Two tokens are comparable when they are both integers or both
strings. -/
def tokenComparable : Token → Token → Bool
  | Token.int _, Token.int _ => true
  | Token.str _, Token.str _ => true
  | _, _ => false

/-- Element-wise comparison of equal-length order keys, as the claim
states it. -/
def claimKeyLE : List Token → List Token → Prop
  | [], [] => True
  | a :: as, b :: bs => tokenLT a b ∨ (a = b ∧ claimKeyLE as bs)
  | _, _ => False

/-- The merge order of the claim: fewer order-key tokens first, then
element-wise comparison of equal-length keys. -/
def claimLE (a b : String) : Prop :=
  (extract_suffix_parts a).length < (extract_suffix_parts b).length
    ∨ claimKeyLE (extract_suffix_parts a) (extract_suffix_parts b)

/-- Every pair of members of `l` has comparable tokens at each shared
position of their order keys. -/
def keysComparable (l : List String) : Prop :=
  ∀ a ∈ l, ∀ b ∈ l,
    ∀ p ∈ (extract_suffix_parts a).zip (extract_suffix_parts b),
      tokenComparable p.1 p.2 = true

/-! ## The worker model -/

/-- Outcomes of every effectful operation `merge_pdfs_worker` performs. -/
structure Env where
  mkdirsOk : Bool
  listing : Option (List String)
  isDir : String → Bool
  synth : String → Option String
  fExists : String → Bool
  openPdf : String → Option Nat
  saveOk : String → Bool
  copyOk : String → Bool
  csvOk : Bool
  unlinkOk : String → Bool

/-- Observable filesystem events of a run: merged-output saves, QC copies
and placeholder deletions, in the order they are performed. -/
inductive Ev where
  | save : String → Ev
  | copy : String → Ev
  | del : String → Ev
deriving DecidableEq, Repr

/-- Tests whether an event is a placeholder deletion. -/
def Ev.isDel : Ev → Bool
  | Ev.del _ => true
  | _ => false

/-- Lookup in an insertion-ordered association list (Python dict read). -/
def lookupAssoc (m : List (String × String)) (k : String) : Option String :=
  match m with
  | [] => none
  | (k', v) :: rest => if k' = k then some v else lookupAssoc rest k

/-- Python `dict[k] = v`: overwrite in place, append when absent. -/
def assocSet : List (String × String) → String → String → List (String × String)
  | [], k, v => [(k, v)]
  | (k', v') :: rest, k, v =>
    if k' = k then (k, v) :: rest else (k', v') :: assocSet rest k v

/-- Python `families.setdefault(k, []).append(v)`. -/
def assocAppend : List (String × List String) → String → String → List (String × List String)
  | [], k, v => [(k, [v])]
  | (k', vs) :: rest, k, v =>
    if k' = k then (k', vs ++ [v]) :: rest else (k', vs) :: assocAppend rest k v

/-- Python `families[k].remove(v)` (first occurrence), guarded by the
membership test the source performs. -/
def assocRemove : List (String × List String) → String → String → List (String × List String)
  | [], _, _ => []
  | (k', vs) :: rest, k, v =>
    if k' = k then (k', vs.erase v) :: rest else (k', vs) :: assocRemove rest k v

/-- Python `set.add`: insertion-ordered, duplicate-free. -/
def insertNew (l : List String) (x : String) : List String :=
  if x ∈ l then l else l ++ [x]

/-- Python `str.lower()` (ASCII model). -/
def pyLower (s : String) : String := ⟨s.data.map Char.toLower⟩

/-- The worker's own temporary-artifact filter:
`filename.lower().startswith("tmp_merger_")`. -/
def isTmpName (s : String) : Bool :=
  List.isPrefixOf "tmp_merger_".data (pyLower s).data

/-- State accumulated by Pass 1. -/
structure P1 where
  log : List String
  families : List (String × List String)
  fmap : List (String × String)
  placeholders : List String
  nativeKeys : List String
deriving Repr

/-- One Pass-1 iteration of `merge_pdfs_worker` for a directory entry:
skip directories and the worker's own temporaries, group by family key,
record PDF paths directly, and synthesize placeholders for native files,
dropping the item from its family on synthesis failure. -/
def pass1Step (env : Env) (folder : String) (st : P1) (fname : String) : P1 :=
  let full := folder ++ "/" ++ fname
  if env.isDir full then st
  else if isTmpName fname then st
  else
    let ext := (splitext fname).2
    let fk := extract_family_key fname
    let st1 : P1 := { st with families := assocAppend st.families fk fname }
    if pyLower ext = ".pdf" then
      { st1 with fmap := assocSet st1.fmap fname full }
    else
      let st2 : P1 := { st1 with
        log := st1.log ++ ["Creating placeholder for native file: " ++ fname] }
      match env.synth fname with
      | some p =>
        { st2 with fmap := assocSet st2.fmap fname p,
                   placeholders := insertNew st2.placeholders p,
                   nativeKeys := insertNew st2.nativeKeys fk }
      | none =>
        { st2 with
          log := st2.log ++
            ["ERROR: Failed to create placeholder for " ++ fname ++ ". It will be skipped."],
          families := assocRemove st2.families fk fname }

/-- Pass 1 over the directory listing. -/
def pass1 (env : Env) (folder : String) (names : List String) (st : P1) : P1 :=
  names.foldl (pass1Step env folder) st

/-- The per-family record Pass 2 produces: the family key, its sorted
member list, the number of members successfully appended, the total page
count, the consulted native flag, the attempted output path (when any
member was appended) and whether the save succeeded. -/
structure FamResult where
  key : String
  sorted : List String
  count : Nat
  pages : Nat
  native : Bool
  attempted : Option String
  saved : Bool
deriving DecidableEq, Repr

/-- Accumulator of the per-member append loop. -/
structure MAcc where
  pages : Nat
  count : Nat
  log : List String

/-- One iteration of the per-member append loop: a missing path, an
unreadable file or a zero-page document is logged and skipped; a readable
document with pages is appended. -/
def memberStep (env : Env) (fmap : List (String × String)) (acc : MAcc) (fname : String) : MAcc :=
  match lookupAssoc fmap fname with
  | none =>
    { acc with log := acc.log ++
        ["WARNING: File path for " ++ fname ++ " not found or file does not exist. Skipping."] }
  | some p =>
    if p = "" || !(env.fExists p) then
      { acc with log := acc.log ++
          ["WARNING: File path for " ++ fname ++ " not found or file does not exist. Skipping."] }
    else
      match env.openPdf p with
      | none =>
        { acc with log := acc.log ++
            ["ERROR: pikepdf could not read/process " ++ fname ++ " (Path: " ++ p ++
              "). Skipping this file."] }
      | some 0 =>
        { acc with log := acc.log ++
            ["WARNING: File " ++ fname ++ " (Path: " ++ p ++
              ") is a PDF with no pages (pikepdf). Skipping."] }
      | some (n + 1) =>
        { pages := acc.pages + (n + 1), count := acc.count + 1, log := acc.log }

/-- Decides that the append loop fails on this member. -/
def memberFails (env : Env) (fmap : List (String × String)) (f : String) : Bool :=
  match lookupAssoc fmap f with
  | none => true
  | some p =>
    p = "" || !(env.fExists p) ||
      (match env.openPdf p with
       | none => true
       | some 0 => true
       | some (_ + 1) => false)

/-- The log line the append loop emits for a failing member. -/
def memberFailLine (env : Env) (fmap : List (String × String)) (f : String) : String :=
  match lookupAssoc fmap f with
  | none => "WARNING: File path for " ++ f ++ " not found or file does not exist. Skipping."
  | some p =>
    if p = "" || !(env.fExists p) then
      "WARNING: File path for " ++ f ++ " not found or file does not exist. Skipping."
    else
      match env.openPdf p with
      | none =>
        "ERROR: pikepdf could not read/process " ++ f ++ " (Path: " ++ p ++
          "). Skipping this file."
      | _ =>
        "WARNING: File " ++ f ++ " (Path: " ++ p ++ ") is a PDF with no pages (pikepdf). Skipping."

/-- State accumulated by Pass 2. -/
structure P2 where
  log : List String
  results : List FamResult
  maxCount : Nat
  largest : Option String
  firstNative : Option String
  trace : List Ev
  processed : Nat
  progress : List (Nat × Nat)

/-- One Pass-2 iteration for a family: filter members with resolved paths,
sort them, run the append loop, write the merged output named after the
first sorted member when at least one member was appended, and update the
largest-family and first-native aggregates on a successful save. -/
def pass2Step (env : Env) (fmap : List (String × String)) (nativeKeys : List String)
    (mergedDir : String) (total : Nat) (st : P2) (fam : String × List String) : P2 :=
  let fk := fam.1
  let validFiles := fam.2.filter (fun f => (lookupAssoc fmap f).isSome)
  if validFiles = [] then
    { st with
      log := st.log ++ ["No valid files to merge for family " ++ fk ++ ". Skipping."],
      processed := st.processed + 1,
      progress := st.progress ++ [(st.processed + 1, total)] }
  else
    let sortedFiles := sortFamily validFiles
    let native := decide (fk ∈ nativeKeys)
    let log1 := st.log ++
      ["Processing family: " ++ fk ++ ". Files to merge (in order): " ++
        String.intercalate ", " sortedFiles]
    let acc := sortedFiles.foldl (memberStep env fmap) { pages := 0, count := 0, log := log1 }
    if 0 < acc.count then
      let outName := (splitext (sortedFiles.headD "")).1 ++ ".pdf"
      let outPath := mergedDir ++ "/" ++ outName
      if env.saveOk outPath then
        let agg := if st.maxCount < acc.count then (acc.count, some outPath)
                   else (st.maxCount, st.largest)
        let fn := if native && st.firstNative.isNone then some outPath else st.firstNative
        { log := acc.log ++
            ["Successfully merged " ++ toString acc.count ++ " file(s) into: Merged PDFs/" ++ outName],
          results := st.results ++
            [⟨fk, sortedFiles, acc.count, acc.pages, native, some outPath, true⟩],
          maxCount := agg.1, largest := agg.2, firstNative := fn,
          trace := st.trace ++ [Ev.save outPath],
          processed := st.processed + 1,
          progress := st.progress ++ [(st.processed + 1, total)] }
      else
        { st with
          log := acc.log ++
            ["ERROR: Could not write merged PDF " ++ outName ++ " using pikepdf."],
          results := st.results ++
            [⟨fk, sortedFiles, acc.count, acc.pages, native, some outPath, false⟩],
          processed := st.processed + 1,
          progress := st.progress ++ [(st.processed + 1, total)] }
    else
      { st with
        log := acc.log ++
          ["No files were successfully added to the merger for family " ++ fk ++
            ". No output generated."],
        results := st.results ++
          [⟨fk, sortedFiles, acc.count, acc.pages, native, none, false⟩],
        processed := st.processed + 1,
        progress := st.progress ++ [(st.processed + 1, total)] }

/-- Pass 2 over the families discovered by Pass 1. -/
def pass2 (env : Env) (fmap : List (String × String)) (nativeKeys : List String)
    (mergedDir : String) (fams : List (String × List String)) (st : P2) : P2 :=
  fams.foldl (pass2Step env fmap nativeKeys mergedDir fams.length) st

/-- Model of `os.path.basename`. -/
def basename (p : String) : String :=
  ⟨p.data.foldl (fun acc c => if c = '/' then [] else acc ++ [c]) []⟩

/-- The largest-family QC copy: returns the log, the set of copied source
paths, and the event trace. -/
def qcLargest (env : Env) (largest : Option String) (log : List String) (trace : List Ev) :
    List String × List String × List Ev :=
  match largest with
  | some p =>
    if env.fExists p then
      if env.copyOk p then
        (log ++ ["Copied largest family PDF to QC Docs: " ++ basename p], [p],
          trace ++ [Ev.copy p])
      else (log ++ ["ERROR copying largest family PDF to QC Docs."], ([] : List String), trace)
    else (log, ([] : List String), trace)
  | none => (log, ([] : List String), trace)

/-- The first-native QC copy: copy the first-native output when it differs
from the largest-family output; on coincidence log only when the
largest-family output is not in the copied set; when no family was
native-containing, log that no native-criterion QC document applies. -/
def qcNative (env : Env) (largest firstNative : Option String) (nativeKeys : List String)
    (copied : List String) (log : List String) (trace : List Ev) : List String × List Ev :=
  match firstNative with
  | some q =>
    if env.fExists q then
      if largest ≠ some q then
        if env.copyOk q then
          (log ++ ["Copied first PDF with native placeholder to QC Docs: " ++ basename q],
            trace ++ [Ev.copy q])
        else (log ++ ["ERROR copying PDF with native to QC Docs."], trace)
      else
        if q ∈ copied then (log, trace)
        else
          (log ++ ["Largest family PDF (" ++ basename q ++
            ") also contained a native; already copied for QC."], trace)
    else
      if nativeKeys = [] then
        (log ++ ["No families contained native placeholders; no specific QC doc for this criterion."],
          trace)
      else (log, trace)
  | none =>
    if nativeKeys = [] then
      (log ++ ["No families contained native placeholders; no specific QC doc for this criterion."],
        trace)
    else (log, trace)

/-- The QC-selection phase: copy the largest-family output, then handle
the first-native output. -/
def qcPhase (env : Env) (largest firstNative : Option String) (nativeKeys : List String)
    (log : List String) (trace : List Ev) : List String × List Ev :=
  let big := qcLargest env largest (log ++ ["Processing QC documents..."]) trace
  qcNative env largest firstNative nativeKeys big.2.1 big.1 big.2.2

/-- One best-effort deletion of a registered placeholder. -/
def cleanupStep (env : Env) (acc : List String × List Ev) (p : String) : List String × List Ev :=
  if env.fExists p then
    if env.unlinkOk p then (acc.1, acc.2 ++ [Ev.del p])
    else (acc.1 ++ ["WARNING: Could not delete temporary placeholder " ++ p], acc.2)
  else acc

/-- The warnings logged by the cleanup loop, in iteration order. -/
def cleanupWarnings (env : Env) (ps : List String) : List String :=
  (ps.filter (fun p => env.fExists p && !(env.unlinkOk p))).map
    (fun p => "WARNING: Could not delete temporary placeholder " ++ p)

/-- The deletion events performed by the cleanup loop, in iteration
order. -/
def cleanupDels (env : Env) (ps : List String) : List Ev :=
  (ps.filter (fun p => env.fExists p && env.unlinkOk p)).map Ev.del

/-- The largest appended-member count over a list of Pass-2 records. -/
def maxCountOf (rs : List FamResult) : Nat :=
  (rs.map FamResult.count).foldr max 0

/-- Selects a record with exactly `m` appended members. -/
def qMax (m : Nat) (r : FamResult) : Bool := decide (r.count = m)

/-- Selects a native-flagged record with at least one appended member. -/
def qNative (r : FamResult) : Bool := r.native && decide (0 < r.count)

/-- The relation the two QC aggregates maintain over the Pass-2 fold when
every save succeeds: the running maximum is the maximum appended count so
far, the remembered largest output is that of the first record attaining
the maximum (none while no member merged), and the remembered first-native
output is that of the first native-flagged record with a merged member. -/
def aggInv (st : P2) : Prop :=
  st.maxCount = maxCountOf st.results
  ∧ st.largest = (if maxCountOf st.results = 0 then none
      else (st.results.find? (qMax (maxCountOf st.results))).bind FamResult.attempted)
  ∧ st.firstNative = (st.results.find? qNative).bind FamResult.attempted
  ∧ ∀ r ∈ st.results, 0 < r.count → r.attempted.isSome = true

/-- Overall result of a run of `merge_pdfs_worker`. -/
structure RunResult where
  log : List String
  verdict : Bool
  families : List (String × List String)
  fmap : List (String × String)
  placeholders : List String
  nativeKeys : List String
  famResults : List FamResult
  largest : Option String
  firstNative : Option String
  csvRows : Option (List String)
  trace : List Ev
  processed : Nat
  progress : List (Nat × Nat)

/-- Result of a run that aborted before Pass 1. -/
def emptyResult (log : List String) : RunResult :=
  { log := log, verdict := false, families := [], fmap := [], placeholders := [],
    nativeKeys := [], famResults := [], largest := none, firstNative := none,
    csvRows := none, trace := [], processed := 0, progress := [] }

/-- Destination directory of the merged outputs. -/
def mergedDirPath (folder : String) : String :=
  (folder ++ "/" ++ "Merged Output") ++ "/" ++ "Merged PDFs"

/-- State at the start of Pass 1 of a run that passed the fatal
pre-Pass-1 checks. -/
def p1Init (folder : String) : P1 :=
  { log := ["Output folders created/ensured: " ++ (folder ++ "/" ++ "Merged Output"),
      "Starting Pass 1: Identifying families and creating placeholders..."],
    families := [], fmap := [], placeholders := [], nativeKeys := [] }

/-- The Pass-1 state of a run that passed the fatal pre-Pass-1 checks. -/
def pass1Of (env : Env) (folder : String) (names : List String) : P1 :=
  pass1 env folder names (p1Init folder)

/-- The Pass-2 state of a run that passed the fatal pre-Pass-1 checks. -/
def pass2Of (env : Env) (folder : String) (names : List String) : P2 :=
  pass2 env (pass1Of env folder names).fmap (pass1Of env folder names).nativeKeys
    (mergedDirPath folder) (pass1Of env folder names).families
    { log := (pass1Of env folder names).log ++
        ["Pass 1 completed.", "Starting Pass 2: Merging PDF families using pikepdf..."],
      results := [], maxCount := 0, largest := none, firstNative := none,
      trace := [], processed := 0, progress := [] }

/-- Log and event trace after the QC-selection phase. -/
def qcOf (env : Env) (folder : String) (names : List String) : List String × List Ev :=
  qcPhase env (pass2Of env folder names).largest (pass2Of env folder names).firstNative
    (pass1Of env folder names).nativeKeys
    ((pass2Of env folder names).log ++ ["Pass 2 completed."])
    (pass2Of env folder names).trace

/-- CSV rows (when the write succeeds) and the log after the CSV dump. -/
def csvOf (env : Env) (folder : String) (names : List String) :
    Option (List String) × List String :=
  if env.csvOk then
    (some ("Message" :: (qcOf env folder names).1),
      (qcOf env folder names).1 ++ ["Merge log saved to: Merged Output/Merge Log.csv"])
  else
    (none, (qcOf env folder names).1 ++ ["ERROR: Could not write CSV log file."])

/-- Log and event trace after the placeholder-cleanup loop. -/
def cleanupOf (env : Env) (folder : String) (names : List String) : List String × List Ev :=
  (pass1Of env folder names).placeholders.foldl (cleanupStep env)
    ((csvOf env folder names).2 ++ ["Cleaning up temporary files..."],
      (qcOf env folder names).2)

/-- Result of a run that passed the fatal pre-Pass-1 checks. -/
def runOk (env : Env) (folder : String) (names : List String) : RunResult :=
  { log := (cleanupOf env folder names).1 ++ ["Temporary file cleanup completed."],
    verdict := true,
    families := (pass1Of env folder names).families,
    fmap := (pass1Of env folder names).fmap,
    placeholders := (pass1Of env folder names).placeholders,
    nativeKeys := (pass1Of env folder names).nativeKeys,
    famResults := (pass2Of env folder names).results,
    largest := (pass2Of env folder names).largest,
    firstNative := (pass2Of env folder names).firstNative,
    csvRows := (csvOf env folder names).1,
    trace := (cleanupOf env folder names).2,
    processed := (pass2Of env folder names).processed,
    progress := (pass2Of env folder names).progress }

/-- The whole worker: directory creation, source enumeration, Pass 1,
Pass 2, QC selection, CSV log dump, placeholder cleanup, completion
verdict. -/
def run (env : Env) (folder : String) : RunResult :=
  if !env.mkdirsOk then
    emptyResult ["CRITICAL ERROR: Could not create output directories."]
  else
    match env.listing with
    | none =>
      emptyResult
        (["Output folders created/ensured: " ++ (folder ++ "/" ++ "Merged Output")] ++
          ["ERROR: Could not read source directory: " ++ folder ++ "."])
    | some names => runOk env folder names

/-- What Pass 2 guarantees about a result record it appends for a family:
the key, the sorted member list, the consulted native flag, and the
output-naming discipline — an output is attempted exactly when a member
was appended, at the destination named after the first sorted member. -/
def resultSpec (env : Env) (fmap : List (String × String)) (nk : List String)
    (dir : String) (fam : String × List String) (r : FamResult) : Prop :=
  r.key = fam.1 ∧
  r.sorted = sortFamily (fam.2.filter (fun f => (lookupAssoc fmap f).isSome)) ∧
  r.native = decide (fam.1 ∈ nk) ∧
  (0 < r.count →
    r.attempted = some (dir ++ "/" ++ ((splitext (r.sorted.headD "")).1 ++ ".pdf")) ∧
    r.saved = env.saveOk (dir ++ "/" ++ ((splitext (r.sorted.headD "")).1 ++ ".pdf"))) ∧
  (r.count = 0 → r.attempted = none ∧ r.saved = false)

/-- An environment in which every effectful operation succeeds, every
page count is 1, and the listing is as given. -/
def okEnv (names : List String) : Env :=
  { mkdirsOk := true, listing := some names, isDir := fun _ => false,
    synth := fun f => some ("tmpph_" ++ f), fExists := fun _ => true,
    openPdf := fun _ => some 1, saveOk := fun _ => true, copyOk := fun _ => true,
    csvOk := true, unlinkOk := fun _ => true }

/-! ## Parser lemmas and C1 -/

theorem pySplitDot_ne_nil (l : List Char) : pySplitDot l ≠ [] := by
  induction l with
  | nil => simp [pySplitDot]
  | cons c rest ih =>
    by_cases h : c = '.'
    · simp [pySplitDot, h]
    · cases hr : pySplitDot rest with
      | nil => exact absurd hr ih
      | cons t ts => simp [pySplitDot, h, hr]

theorem headD_pySplitDot (l : List Char) :
    (pySplitDot l).headD [] = l.takeWhile (fun c => c != '.') := by
  induction l with
  | nil => simp [pySplitDot]
  | cons c rest ih =>
    by_cases h : c = '.'
    · simp [pySplitDot, h]
    · cases hr : pySplitDot rest with
      | nil => exact absurd hr (pySplitDot_ne_nil rest)
      | cons t ts =>
        rw [hr] at ih
        simp only [List.headD_cons] at ih
        simp [pySplitDot, h, hr, List.takeWhile_cons, ih]

theorem length_pySplitDot_le_one (l : List Char) :
    (pySplitDot l).length ≤ 1 ↔ l.all (fun c => c != '.') = true := by
  induction l with
  | nil => simp [pySplitDot]
  | cons c rest ih =>
    by_cases h : c = '.'
    · cases hr : pySplitDot rest with
      | nil => exact absurd hr (pySplitDot_ne_nil rest)
      | cons t ts => simp [pySplitDot, h, hr]
    · cases hr : pySplitDot rest with
      | nil => exact absurd hr (pySplitDot_ne_nil rest)
      | cons t ts =>
        rw [hr] at ih
        simpa [pySplitDot, h, hr] using ih

/-- C1: for every filename `f`, the source `extract_family_key` computes
the text of `f` with its extension stripped and truncated at the first
remaining `'.'`, and the source `extract_suffix_parts` computes the empty
sequence when the extension-stripped name contains no `'.'` and otherwise
the `'.'`-separated tokens after the family key, each converted to an
integer when it parses as one and kept as a string token otherwise. -/
theorem C1_identifier_keys (f : String) :
    extract_family_key f = specFamilyKey f ∧ extract_suffix_parts f = specOrderKey f := by
  constructor
  · unfold extract_family_key specFamilyKey
    exact congrArg String.mk (headD_pySplitDot _)
  · unfold extract_suffix_parts specOrderKey
    by_cases h : (splitext f).1.data.all (fun c => c != '.') = true
    · have hlen : ((pySplitDot (splitext f).1.data).map
          (fun l => (⟨l⟩ : String))).length ≤ 1 := by
        rw [List.length_map]
        exact (length_pySplitDot_le_one _).mpr h
      rw [if_pos hlen, if_pos h]
    · have hlen : ¬ ((pySplitDot (splitext f).1.data).map
          (fun l => (⟨l⟩ : String))).length ≤ 1 := by
        rw [List.length_map]
        exact fun hc => h ((length_pySplitDot_le_one _).mp hc)
      rw [if_neg hlen, if_neg h]

/-! ## Order lemmas and C2 -/

theorem tokenLE_total (a b : Token) : (tokenLE a b || tokenLE b a) = true := by
  cases a with
  | int m =>
    cases b with
    | int n => simp only [tokenLE, Bool.or_eq_true, decide_eq_true_eq]; omega
    | str t => simp [tokenLE]
  | str s =>
    cases b with
    | int n => simp [tokenLE]
    | str t =>
      simp only [tokenLE, Bool.or_eq_true, decide_eq_true_eq]
      exact le_total s t

theorem tokenLE_trans {a b c : Token} (h1 : tokenLE a b = true) (h2 : tokenLE b c = true) :
    tokenLE a c = true := by
  cases a <;> cases b <;> cases c <;>
    simp only [tokenLE, decide_eq_true_eq] at h1 h2 ⊢ <;> first
      | trivial
      | omega
      | exact le_trans h1 h2

theorem tokenLE_antisymm {a b : Token} (h1 : tokenLE a b = true) (h2 : tokenLE b a = true) :
    a = b := by
  cases a with
  | int m =>
    cases b with
    | int n =>
      simp only [tokenLE, decide_eq_true_eq] at h1 h2
      have : m = n := le_antisymm h1 h2
      rw [this]
    | str t => simp [tokenLE] at h2
  | str s =>
    cases b with
    | int n => simp [tokenLE] at h1
    | str t =>
      simp only [tokenLE, decide_eq_true_eq] at h1 h2
      rw [le_antisymm h1 h2]

theorem keyLE_refl (l : List Token) : keyLE l l = true := by
  induction l with
  | nil => rfl
  | cons a as ih => simp [keyLE, ih]

theorem keyLE_total (ka kb : List Token) : (keyLE ka kb || keyLE kb ka) = true := by
  induction ka generalizing kb with
  | nil => simp [keyLE]
  | cons a as ih =>
    cases kb with
    | nil => simp [keyLE]
    | cons b bs =>
      by_cases hab : a = b
      · subst hab
        simpa [keyLE] using ih bs
      · have hba : ¬ b = a := fun h => hab h.symm
        simpa [keyLE, hab, hba] using tokenLE_total a b

theorem keyLE_trans {ka kb kc : List Token} (h1 : keyLE ka kb = true)
    (h2 : keyLE kb kc = true) : keyLE ka kc = true := by
  induction ka generalizing kb kc with
  | nil => simp [keyLE]
  | cons a as ih =>
    cases kb with
    | nil => simp [keyLE] at h1
    | cons b bs =>
      cases kc with
      | nil => simp [keyLE] at h2
      | cons c cs =>
        by_cases hab : a = b
        · subst hab
          by_cases hac : a = c
          · subst hac
            simp only [keyLE, if_pos rfl] at h1 h2 ⊢
            exact ih h1 h2
          · simp only [keyLE, if_pos rfl] at h1
            simpa [keyLE, hac] using h2
        · by_cases hbc : b = c
          · subst hbc
            have hac : ¬ a = b := hab
            simp only [keyLE, if_neg hab] at h1 ⊢
            exact h1
          · simp only [keyLE, if_neg hab] at h1
            simp only [keyLE, if_neg hbc] at h2
            by_cases hac : a = c
            · have h2' : tokenLE b a = true := by rw [hac]; exact h2
              exact absurd (tokenLE_antisymm h1 h2') hab
            · simpa [keyLE, hac] using tokenLE_trans h1 h2

theorem sortKeyLE_total (a b : String) : (sortKeyLE a b || sortKeyLE b a) = true := by
  unfold sortKeyLE
  rcases Nat.lt_trichotomy (extract_suffix_parts a).length (extract_suffix_parts b).length
    with h | h | h
  · simp [h]
  · simpa [h, Nat.lt_irrefl] using
      keyLE_total (extract_suffix_parts a) (extract_suffix_parts b)
  · simp [h]

theorem sortKeyLE_trans {a b c : String} (h1 : sortKeyLE a b = true)
    (h2 : sortKeyLE b c = true) : sortKeyLE a c = true := by
  unfold sortKeyLE at h1 h2 ⊢
  simp only [Bool.or_eq_true, Bool.and_eq_true, decide_eq_true_eq] at h1 h2 ⊢
  rcases h1 with h1 | ⟨h1, h1k⟩ <;> rcases h2 with h2 | ⟨h2, h2k⟩
  · exact Or.inl (by omega)
  · exact Or.inl (by omega)
  · exact Or.inl (by omega)
  · exact Or.inr ⟨by omega, keyLE_trans h1k h2k⟩

theorem tokenLE_toLT {a b : Token} (hc : tokenComparable a b = true) (hne : a ≠ b)
    (h : tokenLE a b = true) : tokenLT a b := by
  cases a with
  | int m =>
    cases b with
    | int n =>
      simp only [tokenLE, decide_eq_true_eq] at h
      have : m ≠ n := fun e => hne (by rw [e])
      simp only [tokenLT]
      omega
    | str t => simp [tokenComparable] at hc
  | str s =>
    cases b with
    | int n => simp [tokenComparable] at hc
    | str t =>
      simp only [tokenLE, decide_eq_true_eq] at h
      exact lt_of_le_of_ne h (fun e => hne (by rw [e]))

theorem keyLE_toClaim : ∀ {ka kb : List Token}, ka.length = kb.length →
    (∀ p ∈ ka.zip kb, tokenComparable p.1 p.2 = true) →
    keyLE ka kb = true → claimKeyLE ka kb := by
  intro ka
  induction ka with
  | nil =>
    intro kb hlen _ _
    cases kb with
    | nil => trivial
    | cons b bs => simp at hlen
  | cons a as ih =>
    intro kb hlen hc h
    cases kb with
    | nil => simp at hlen
    | cons b bs =>
      simp only [claimKeyLE]
      by_cases hab : a = b
      · subst hab
        refine Or.inr ⟨rfl, ?_⟩
        refine ih (by simpa using hlen) (fun p hp => hc p ?_) ?_
        · simp [List.zip_cons_cons, hp]
        · simpa [keyLE] using h
      · have hcab : tokenComparable a b = true := hc (a, b) (by simp [List.zip_cons_cons])
        have hle : tokenLE a b = true := by simpa [keyLE, hab] using h
        exact Or.inl (tokenLE_toLT hcab hab hle)

theorem sortKeyLE_toClaim {a b : String}
    (hc : ∀ p ∈ (extract_suffix_parts a).zip (extract_suffix_parts b),
      tokenComparable p.1 p.2 = true)
    (h : sortKeyLE a b = true) : claimLE a b := by
  unfold sortKeyLE at h
  simp only [Bool.or_eq_true, Bool.and_eq_true, decide_eq_true_eq] at h
  rcases h with h | ⟨hlen, hk⟩
  · exact Or.inl h
  · exact Or.inr (keyLE_toClaim hlen hc hk)

theorem sortFamily_filter_key (l : List String) (ks : List Token) :
    (sortFamily l).filter (fun f => decide (extract_suffix_parts f = ks))
      = l.filter (fun f => decide (extract_suffix_parts f = ks)) := by
  have hpair : (l.filter (fun f => decide (extract_suffix_parts f = ks))).Pairwise
      (fun x y => sortKeyLE x y = true) := by
    refine List.pairwise_of_forall_mem_list ?_
    intro x hx y hy
    have hxk : extract_suffix_parts x = ks := by
      have := (List.mem_filter.mp hx).2; simpa using this
    have hyk : extract_suffix_parts y = ks := by
      have := (List.mem_filter.mp hy).2; simpa using this
    simp [sortKeyLE, hxk, hyk, keyLE_refl]
  have hsub : List.Sublist (l.filter (fun f => decide (extract_suffix_parts f = ks)))
      (sortFamily l) :=
    List.sublist_insertionSort hpair (List.filter_sublist l)
  have hsub2 : List.Sublist (l.filter (fun f => decide (extract_suffix_parts f = ks)))
      ((sortFamily l).filter (fun f => decide (extract_suffix_parts f = ks))) := by
    have h1 := hsub.filter (fun f => decide (extract_suffix_parts f = ks))
    rw [List.filter_filter] at h1
    simpa only [Bool.and_self] using h1
  have hlen : ((sortFamily l).filter
      (fun f => decide (extract_suffix_parts f = ks))).length
      = (l.filter (fun f => decide (extract_suffix_parts f = ks))).length :=
    ((List.perm_insertionSort (fun a b => sortKeyLE a b = true) l).filter _).length_eq
  exact (hsub2.eq_of_length hlen.symm).symm

/-- C2: for a family whose members' order keys have pairwise comparable
tokens at each shared position, the Pass-2 sort is a permutation of the
members, it is ascending by (number of order-key tokens, element-wise
order-key comparison with numeric tokens ordered numerically) — so a
member with fewer tokens always precedes one with more, with the
zero-token primary member first — and it is stable: members with equal
order keys keep their Pass-1 insertion order. -/
theorem C2_merge_order (l : List String) (hcomp : keysComparable l) :
    List.Perm (sortFamily l) l ∧ (sortFamily l).Pairwise claimLE ∧
      ∀ ks : List Token,
        (sortFamily l).filter (fun f => decide (extract_suffix_parts f = ks))
          = l.filter (fun f => decide (extract_suffix_parts f = ks)) := by
  refine ⟨List.perm_insertionSort _ l, ?_, fun ks => sortFamily_filter_key l ks⟩
  haveI htot : IsTotal String (fun a b => sortKeyLE a b = true) :=
    ⟨fun a b => by simpa using sortKeyLE_total a b⟩
  haveI htr : IsTrans String (fun a b => sortKeyLE a b = true) :=
    ⟨fun a b c h1 h2 => sortKeyLE_trans h1 h2⟩
  have hs : (sortFamily l).Pairwise (fun a b => sortKeyLE a b = true) :=
    List.sorted_insertionSort (fun a b => sortKeyLE a b = true) l
  refine hs.imp_of_mem ?_
  intro a b ha hb hab
  have ha' : a ∈ l := (List.mem_insertionSort _).mp ha
  have hb' : b ∈ l := (List.mem_insertionSort _).mp hb
  exact sortKeyLE_toClaim (hcomp a ha' b hb') hab

/-- Witness for C2 at a concrete three-member family. -/
theorem C2_merge_order_witness :
    List.Perm (sortFamily ["A.0001.0002.pdf", "A.pdf", "A.0001.pdf"])
        ["A.0001.0002.pdf", "A.pdf", "A.0001.pdf"] ∧
      (sortFamily ["A.0001.0002.pdf", "A.pdf", "A.0001.pdf"]).Pairwise claimLE ∧
      ∀ ks : List Token,
        (sortFamily ["A.0001.0002.pdf", "A.pdf", "A.0001.pdf"]).filter
            (fun f => decide (extract_suffix_parts f = ks))
          = ["A.0001.0002.pdf", "A.pdf", "A.0001.pdf"].filter
            (fun f => decide (extract_suffix_parts f = ks)) :=
  C2_merge_order ["A.0001.0002.pdf", "A.pdf", "A.0001.pdf"]
    (by unfold keysComparable; decide)

/-! ## Run lemmas and C4 -/

theorem run_ok (env : Env) (folder : String) (names : List String)
    (h1 : env.mkdirsOk = true) (h2 : env.listing = some names) :
    run env folder = runOk env folder names := by
  simp [run, h1, h2]

theorem memberStep_fails {env : Env} {fmap : List (String × String)} {f : String}
    (h : memberFails env fmap f = true) (acc : MAcc) :
    memberStep env fmap acc f =
      { pages := acc.pages, count := acc.count,
        log := acc.log ++ [memberFailLine env fmap f] } := by
  cases hl : lookupAssoc fmap f with
  | none => simp [memberStep, memberFailLine, hl]
  | some p =>
    by_cases hpe : p = ""
    · simp [memberStep, memberFailLine, hl, hpe]
    · cases hex : env.fExists p with
      | false => simp [memberStep, memberFailLine, hl, hpe, hex]
      | true =>
        cases ho : env.openPdf p with
        | none => simp [memberStep, memberFailLine, hl, hpe, hex, ho]
        | some n =>
          cases n with
          | zero => simp [memberStep, memberFailLine, hl, hpe, hex, ho]
          | succ m =>
            exfalso
            simp [memberFails, hl, hpe, hex, ho] at h

theorem foldl_memberStep_append (env : Env) (fmap : List (String × String))
    (l1 l2 : List String) (bad : String) (h : memberFails env fmap bad = true)
    (init : MAcc) :
    (l1 ++ bad :: l2).foldl (memberStep env fmap) init
      = l2.foldl (memberStep env fmap)
          { pages := (l1.foldl (memberStep env fmap) init).pages,
            count := (l1.foldl (memberStep env fmap) init).count,
            log := (l1.foldl (memberStep env fmap) init).log ++
              [memberFailLine env fmap bad] } := by
  rw [List.foldl_append]
  simp [memberStep_fails h]

theorem pass2Step_processed (env : Env) (fmap : List (String × String))
    (nk : List String) (dir : String) (tot : Nat) (st : P2) (fam : String × List String) :
    (pass2Step env fmap nk dir tot st fam).processed = st.processed + 1 := by
  simp only [pass2Step]
  repeat' split
  all_goals rfl

theorem foldl_pass2Step_processed (env : Env) (fmap : List (String × String))
    (nk : List String) (dir : String) (tot : Nat) :
    ∀ (fams : List (String × List String)) (st : P2),
      (fams.foldl (pass2Step env fmap nk dir tot) st).processed
        = st.processed + fams.length := by
  intro fams
  induction fams with
  | nil => intro st; simp
  | cons f fs ih =>
    intro st
    rw [List.foldl_cons, ih, pass2Step_processed]
    simp only [List.length_cons]
    omega

/-- C4: a member whose path is missing, unreadable or whose document has
zero pages is logged and skipped while its family's append loop continues
with the remaining members unchanged; every family is still processed
(no family aborts the batch); and the final verdict is false exactly when
the output directory tree could not be created or the source directory
could not be enumerated — every other error path ends with the completion
callback reporting success. -/
theorem C4_error_policy (env : Env) (folder : String) :
    ((run env folder).verdict = false ↔ (env.mkdirsOk = false ∨ env.listing = none))
    ∧ (∀ (fmap : List (String × String)) (l1 l2 : List String) (bad : String) (init : MAcc),
        memberFails env fmap bad = true →
          (l1 ++ bad :: l2).foldl (memberStep env fmap) init
            = l2.foldl (memberStep env fmap)
                { pages := (l1.foldl (memberStep env fmap) init).pages,
                  count := (l1.foldl (memberStep env fmap) init).count,
                  log := (l1.foldl (memberStep env fmap) init).log ++
                    [memberFailLine env fmap bad] })
    ∧ (∀ names : List String, env.mkdirsOk = true → env.listing = some names →
        (run env folder).processed = (run env folder).families.length) := by
  refine ⟨?_, ?_, ?_⟩
  · cases hm : env.mkdirsOk
    · simp [run, hm, emptyResult]
    · cases hl : env.listing with
      | none => simp [run, hm, hl, emptyResult]
      | some names => simp [run, hm, hl, runOk]
  · intro fmap l1 l2 bad init h
    exact foldl_memberStep_append env fmap l1 l2 bad h init
  · intro names h1 h2
    rw [run_ok env folder names h1 h2]
    show (pass2Of env folder names).processed = (pass1Of env folder names).families.length
    unfold pass2Of pass2
    rw [foldl_pass2Step_processed]
    simp

/-- Witness for C4 at a concrete environment, a failing member and a
processed run. -/
theorem C4_error_policy_witness :
    ((run (okEnv ["A.pdf"]) "src").verdict = false ↔
      ((okEnv ["A.pdf"]).mkdirsOk = false ∨ (okEnv ["A.pdf"]).listing = none))
    ∧ ((["B.pdf"] ++ "X.pdf" :: ["C.pdf"]).foldl
          (memberStep (okEnv ["A.pdf"]) [("B.pdf", "b"), ("C.pdf", "c")])
          { pages := 0, count := 0, log := [] }
        = ["C.pdf"].foldl (memberStep (okEnv ["A.pdf"]) [("B.pdf", "b"), ("C.pdf", "c")])
            { pages := ((["B.pdf"] : List String).foldl
                (memberStep (okEnv ["A.pdf"]) [("B.pdf", "b"), ("C.pdf", "c")])
                { pages := 0, count := 0, log := [] }).pages,
              count := ((["B.pdf"] : List String).foldl
                (memberStep (okEnv ["A.pdf"]) [("B.pdf", "b"), ("C.pdf", "c")])
                { pages := 0, count := 0, log := [] }).count,
              log := ((["B.pdf"] : List String).foldl
                (memberStep (okEnv ["A.pdf"]) [("B.pdf", "b"), ("C.pdf", "c")])
                { pages := 0, count := 0, log := [] }).log ++
                [memberFailLine (okEnv ["A.pdf"]) [("B.pdf", "b"), ("C.pdf", "c")] "X.pdf"] })
    ∧ (run (okEnv ["A.pdf"]) "src").processed = (run (okEnv ["A.pdf"]) "src").families.length :=
  ⟨(C4_error_policy (okEnv ["A.pdf"]) "src").1,
    (C4_error_policy (okEnv ["A.pdf"]) "src").2.1 [("B.pdf", "b"), ("C.pdf", "c")]
      ["B.pdf"] ["C.pdf"] "X.pdf" { pages := 0, count := 0, log := [] } (by decide),
    (C4_error_policy (okEnv ["A.pdf"]) "src").2.2 ["A.pdf"] rfl rfl⟩

/-! ## Pass-2 result lemmas and C3 -/

theorem pass2Step_results_cases (env : Env) (fmap : List (String × String))
    (nk : List String) (dir : String) (tot : Nat) (st : P2) (fam : String × List String) :
    (fam.2.filter (fun f => (lookupAssoc fmap f).isSome) = []
        ∧ (pass2Step env fmap nk dir tot st fam).results = st.results)
    ∨ ∃ r : FamResult, (pass2Step env fmap nk dir tot st fam).results = st.results ++ [r]
        ∧ resultSpec env fmap nk dir fam r := by
  simp only [pass2Step]
  by_cases hv : fam.2.filter (fun f => (lookupAssoc fmap f).isSome) = []
  · rw [if_pos hv]
    exact Or.inl ⟨hv, rfl⟩
  · rw [if_neg hv]
    set sortedFiles := sortFamily (fam.2.filter (fun f => (lookupAssoc fmap f).isSome))
      with hsf
    set acc := sortedFiles.foldl (memberStep env fmap)
      { pages := 0, count := 0,
        log := st.log ++ ["Processing family: " ++ fam.1 ++ ". Files to merge (in order): " ++
          String.intercalate ", " sortedFiles] } with hacc
    by_cases hc : 0 < acc.count
    · rw [if_pos hc]
      by_cases hs : env.saveOk (dir ++ "/" ++ ((splitext (sortedFiles.headD "")).1 ++ ".pdf")) = true
      · rw [if_pos hs]
        refine Or.inr ⟨_, rfl, rfl, rfl, rfl, fun _ => ⟨rfl, ?_⟩,
          fun h0 => absurd hc (by have h0' : acc.count = 0 := h0; omega)⟩
        exact hs.symm
      · rw [if_neg hs]
        refine Or.inr ⟨_, rfl, rfl, rfl, rfl, fun _ => ⟨rfl, ?_⟩,
          fun h0 => absurd hc (by have h0' : acc.count = 0 := h0; omega)⟩
        exact ((Bool.not_eq_true _).mp hs).symm
    · rw [if_neg hc]
      exact Or.inr ⟨_, rfl, rfl, rfl, rfl, fun h0 => absurd h0 hc, fun _ => ⟨rfl, rfl⟩⟩

theorem pass2_results_spec (env : Env) (fmap : List (String × String))
    (nk : List String) (dir : String) (tot : Nat) :
    ∀ (fams : List (String × List String)) (st : P2),
      ∀ r ∈ (fams.foldl (pass2Step env fmap nk dir tot) st).results,
        r ∈ st.results ∨ ∃ fam ∈ fams, resultSpec env fmap nk dir fam r := by
  intro fams
  induction fams with
  | nil => intro st r hr; exact Or.inl hr
  | cons f fs ih =>
    intro st r hr
    rw [List.foldl_cons] at hr
    rcases ih (pass2Step env fmap nk dir tot st f) r hr with h | ⟨fam, hfam, hspec⟩
    · rcases pass2Step_results_cases env fmap nk dir tot st f with ⟨_, he⟩ | ⟨r', he, hspec'⟩
      · rw [he] at h
        exact Or.inl h
      · rw [he] at h
        rcases List.mem_append.mp h with h | h
        · exact Or.inl h
        · rcases List.mem_singleton.mp h with rfl
          exact Or.inr ⟨f, List.mem_cons_self f fs, hspec'⟩
    · exact Or.inr ⟨fam, List.mem_cons_of_mem f hfam, hspec⟩

/-- C3: for every family record produced by Pass 2, when at least one
member was successfully appended the merged document is saved under the
"Merged PDFs" destination with a filename equal to the first sorted
member's base name with its extension replaced by `.pdf` (the save
succeeding exactly when the environment allows the write); when zero
members were appended, no output is attempted for that family. -/
theorem C3_output_naming (env : Env) (folder : String) (names : List String)
    (h1 : env.mkdirsOk = true) (h2 : env.listing = some names) :
    ∀ r ∈ (run env folder).famResults,
      (0 < r.count →
        r.attempted = some (mergedDirPath folder ++ "/" ++
          ((splitext (r.sorted.headD "")).1 ++ ".pdf")) ∧
        r.saved = env.saveOk (mergedDirPath folder ++ "/" ++
          ((splitext (r.sorted.headD "")).1 ++ ".pdf")))
      ∧ (r.count = 0 → r.attempted = none ∧ r.saved = false) := by
  intro r hr
  rw [run_ok env folder names h1 h2] at hr
  have hr2 : r ∈ (pass2Of env folder names).results := hr
  unfold pass2Of pass2 at hr2
  rcases pass2_results_spec env (pass1Of env folder names).fmap
      (pass1Of env folder names).nativeKeys (mergedDirPath folder)
      (pass1Of env folder names).families.length
      (pass1Of env folder names).families _ r hr2 with h | ⟨fam, _, hspec⟩
  · simp at h
  · exact ⟨hspec.2.2.2.1, hspec.2.2.2.2⟩

/-- Witness for C3: the concrete two-member family `A` merges into
`A.pdf` under the Merged PDFs destination. -/
theorem C3_output_naming_witness :
    (0 < (2 : Nat) →
      (some "src/Merged Output/Merged PDFs/A.pdf" : Option String) =
        some (mergedDirPath "src" ++ "/" ++
          ((splitext ((["A.pdf", "A.0001.pdf"] : List String).headD "")).1 ++ ".pdf")) ∧
      true = (okEnv ["A.pdf", "A.0001.pdf"]).saveOk (mergedDirPath "src" ++ "/" ++
        ((splitext ((["A.pdf", "A.0001.pdf"] : List String).headD "")).1 ++ ".pdf")))
    ∧ ((2 : Nat) = 0 →
        (some "src/Merged Output/Merged PDFs/A.pdf" : Option String) = none ∧ true = false) := by
  have h := C3_output_naming (okEnv ["A.pdf", "A.0001.pdf"]) "src" ["A.pdf", "A.0001.pdf"]
    rfl rfl
    { key := "A", sorted := ["A.pdf", "A.0001.pdf"], count := 2, pages := 2,
      native := false, attempted := some "src/Merged Output/Merged PDFs/A.pdf", saved := true }
    (by decide)
  exact h

/-! ## Association-list and log-extension lemmas -/

theorem mem_assocAppend_members :
    ∀ (m : List (String × List String)) (k v x : String) (ms : String × List String),
      ms ∈ assocAppend m k v → x ∈ ms.2 → (∃ ms' ∈ m, x ∈ ms'.2) ∨ x = v := by
  intro m
  induction m with
  | nil =>
    intro k v x ms hms hx
    simp only [assocAppend, List.mem_singleton] at hms
    subst hms
    simp only [List.mem_singleton] at hx
    exact Or.inr hx
  | cons hd tl ih =>
    obtain ⟨k', vs⟩ := hd
    intro k v x ms hms hx
    by_cases hk : k' = k
    · simp only [assocAppend, if_pos hk, List.mem_cons] at hms
      rcases hms with rfl | hms
      · rcases List.mem_append.mp hx with h | h
        · exact Or.inl ⟨(k', vs), List.mem_cons_self _ _, h⟩
        · exact Or.inr (List.mem_singleton.mp h)
      · exact Or.inl ⟨ms, List.mem_cons_of_mem _ hms, hx⟩
    · simp only [assocAppend, if_neg hk, List.mem_cons] at hms
      rcases hms with rfl | hms
      · exact Or.inl ⟨(k', vs), List.mem_cons_self _ _, hx⟩
      · rcases ih k v x ms hms hx with ⟨ms', hms', hx'⟩ | h
        · exact Or.inl ⟨ms', List.mem_cons_of_mem _ hms', hx'⟩
        · exact Or.inr h

theorem mem_assocRemove_members :
    ∀ (m : List (String × List String)) (k v x : String) (ms : String × List String),
      ms ∈ assocRemove m k v → x ∈ ms.2 → ∃ ms' ∈ m, x ∈ ms'.2 := by
  intro m
  induction m with
  | nil => intro k v x ms hms; simp [assocRemove] at hms
  | cons hd tl ih =>
    obtain ⟨k', vs⟩ := hd
    intro k v x ms hms hx
    by_cases hk : k' = k
    · simp only [assocRemove, if_pos hk, List.mem_cons] at hms
      rcases hms with rfl | hms
      · exact ⟨(k', vs), List.mem_cons_self _ _, List.mem_of_mem_erase hx⟩
      · exact ⟨ms, List.mem_cons_of_mem _ hms, hx⟩
    · simp only [assocRemove, if_neg hk, List.mem_cons] at hms
      rcases hms with rfl | hms
      · exact ⟨(k', vs), List.mem_cons_self _ _, hx⟩
      · rcases ih k v x ms hms hx with ⟨ms', hms', hx'⟩
        exact ⟨ms', List.mem_cons_of_mem _ hms', hx'⟩

theorem lookupAssoc_assocSet_ne :
    ∀ (m : List (String × String)) (k v k' : String), k' ≠ k →
      lookupAssoc (assocSet m k v) k' = lookupAssoc m k' := by
  intro m
  induction m with
  | nil =>
    intro k v k' hne
    show (if k = k' then some v else lookupAssoc [] k') = lookupAssoc [] k'
    rw [if_neg (fun h => hne h.symm)]
  | cons hd tl ih =>
    obtain ⟨a, b⟩ := hd
    intro k v k' hne
    by_cases ha : a = k
    · subst ha
      simp only [assocSet, if_pos rfl, lookupAssoc]
      have hak : ¬ a = k' := fun h => hne h.symm
      rw [if_neg hak, if_neg hak]
    · simp only [assocSet, if_neg ha, lookupAssoc]
      by_cases hak : a = k'
      · rw [if_pos hak, if_pos hak]
      · rw [if_neg hak, if_neg hak]
        exact ih k v k' hne

theorem assocRemove_assocAppend_self :
    ∀ (m : List (String × List String)) (k v : String), (∀ ms ∈ m, v ∉ ms.2) →
      ∀ ms ∈ assocRemove (assocAppend m k v) k v, v ∉ ms.2 := by
  intro m
  induction m with
  | nil =>
    intro k v _ ms hms
    have he : assocRemove (assocAppend [] k v) k v = [(k, [])] := by
      show assocRemove [(k, [v])] k v = [(k, [])]
      simp [assocRemove]
    rw [he, List.mem_singleton] at hms
    subst hms
    simp
  | cons hd tl ih =>
    obtain ⟨k', vs⟩ := hd
    intro k v h ms hms
    by_cases hk : k' = k
    · have hv : v ∉ vs := fun hv => h (k', vs) (List.mem_cons_self _ _) hv
      have herase : (vs ++ [v]).erase v = vs := by
        rw [List.erase_append_right _ hv, List.erase_cons_head, List.append_nil]
      simp only [assocAppend, if_pos hk, assocRemove, herase, List.mem_cons] at hms
      rcases hms with rfl | hms
      · exact hv
      · exact h ms (List.mem_cons_of_mem _ hms)
    · simp only [assocAppend, if_neg hk, assocRemove, List.mem_cons] at hms
      rcases hms with rfl | hms
      · exact h (k', vs) (List.mem_cons_self _ _)
      · exact ih k v (fun ms' hms' => h ms' (List.mem_cons_of_mem _ hms')) ms hms

theorem mem_insertNew {l : List String} {x y : String} :
    y ∈ insertNew l x ↔ y ∈ l ∨ y = x := by
  unfold insertNew
  by_cases h : x ∈ l
  · rw [if_pos h]
    constructor
    · exact Or.inl
    · rintro (hy | rfl)
      · exact hy
      · exact h
  · rw [if_neg h]
    simp [List.mem_append]

theorem insertNew_nodup {l : List String} (x : String) (h : l.Nodup) :
    (insertNew l x).Nodup := by
  unfold insertNew
  by_cases hx : x ∈ l
  · rwa [if_pos hx]
  · rw [if_neg hx]
    simp [List.nodup_append, h, hx]

theorem pass1Step_log_extends (env : Env) (folder : String) (st : P1) (f : String) :
    ∃ w, (pass1Step env folder st f).log = st.log ++ w := by
  unfold pass1Step
  by_cases hd : env.isDir (folder ++ "/" ++ f) = true
  · rw [if_pos hd]; exact ⟨[], by simp⟩
  · rw [if_neg hd]
    by_cases ht : isTmpName f = true
    · rw [if_pos ht]; exact ⟨[], by simp⟩
    · rw [if_neg ht]
      by_cases hp : pyLower (splitext f).2 = ".pdf"
      · rw [if_pos hp]; exact ⟨[], by simp⟩
      · rw [if_neg hp]
        cases hs : env.synth f with
        | none =>
          refine ⟨["Creating placeholder for native file: " ++ f,
            "ERROR: Failed to create placeholder for " ++ f ++ ". It will be skipped."], ?_⟩
          show (st.log ++ ["Creating placeholder for native file: " ++ f]) ++
            ["ERROR: Failed to create placeholder for " ++ f ++ ". It will be skipped."] = _
          rw [List.append_assoc]
          rfl
        | some p =>
          exact ⟨["Creating placeholder for native file: " ++ f], rfl⟩

theorem pass1_log_extends (env : Env) (folder : String) :
    ∀ (names : List String) (st : P1), ∃ w, (pass1 env folder names st).log = st.log ++ w := by
  intro names
  induction names with
  | nil => intro st; exact ⟨[], by simp [pass1]⟩
  | cons f fs ih =>
    intro st
    rcases pass1Step_log_extends env folder st f with ⟨w1, hw1⟩
    rcases ih (pass1Step env folder st f) with ⟨w2, hw2⟩
    exact ⟨w1 ++ w2, by
      show (pass1 env folder fs (pass1Step env folder st f)).log = _
      rw [hw2, hw1, List.append_assoc]⟩

theorem memberStep_log_cases (env : Env) (fmap : List (String × String))
    (acc : MAcc) (f : String) :
    (memberStep env fmap acc f).log = acc.log
    ∨ (memberStep env fmap acc f).log = acc.log ++ [memberFailLine env fmap f] := by
  by_cases hf : memberFails env fmap f = true
  · rw [memberStep_fails hf]
    exact Or.inr rfl
  · cases hl : lookupAssoc fmap f with
    | none => exact absurd (by simp [memberFails, hl]) hf
    | some p =>
      by_cases hpe : p = ""
      · exact absurd (by simp [memberFails, hl, hpe]) hf
      · cases hex : env.fExists p with
        | false => exact absurd (by simp [memberFails, hl, hpe, hex]) hf
        | true =>
          cases ho : env.openPdf p with
          | none => exact absurd (by simp [memberFails, hl, hpe, hex, ho]) hf
          | some n =>
            cases n with
            | zero => exact absurd (by simp [memberFails, hl, hpe, hex, ho]) hf
            | succ m =>
              simp only [memberStep, hl, hpe, hex, ho]
              exact Or.inl (by simp)

theorem foldl_memberStep_log_extends (env : Env) (fmap : List (String × String)) :
    ∀ (l : List String) (init : MAcc),
      ∃ w, (l.foldl (memberStep env fmap) init).log = init.log ++ w := by
  intro l
  induction l with
  | nil => intro init; exact ⟨[], by simp⟩
  | cons f fs ih =>
    intro init
    rcases ih (memberStep env fmap init f) with ⟨w2, hw2⟩
    rcases memberStep_log_cases env fmap init f with h | h
    · exact ⟨w2, by rw [List.foldl_cons, hw2, h]⟩
    · exact ⟨[memberFailLine env fmap f] ++ w2,
        by rw [List.foldl_cons, hw2, h, List.append_assoc]⟩

theorem pass2Step_log_extends (env : Env) (fmap : List (String × String))
    (nk : List String) (dir : String) (tot : Nat) (st : P2) (fam : String × List String) :
    ∃ w, (pass2Step env fmap nk dir tot st fam).log = st.log ++ w := by
  simp only [pass2Step]
  by_cases hv : fam.2.filter (fun f => (lookupAssoc fmap f).isSome) = []
  · rw [if_pos hv]; exact ⟨_, rfl⟩
  · rw [if_neg hv]
    rcases foldl_memberStep_log_extends env fmap
        (sortFamily (fam.2.filter (fun f => (lookupAssoc fmap f).isSome)))
        { pages := 0, count := 0,
          log := st.log ++ ["Processing family: " ++ fam.1 ++ ". Files to merge (in order): " ++
            String.intercalate ", "
              (sortFamily (fam.2.filter (fun f => (lookupAssoc fmap f).isSome)))] }
      with ⟨w, hw⟩
    by_cases hc : 0 < (List.foldl (memberStep env fmap)
        { pages := 0, count := 0,
          log := st.log ++ ["Processing family: " ++ fam.1 ++ ". Files to merge (in order): " ++
            String.intercalate ", "
              (sortFamily (fam.2.filter (fun f => (lookupAssoc fmap f).isSome)))] }
        (sortFamily (fam.2.filter (fun f => (lookupAssoc fmap f).isSome)))).count
    · rw [if_pos hc]
      by_cases hs : env.saveOk (dir ++ "/" ++
          ((splitext ((sortFamily (fam.2.filter
            (fun f => (lookupAssoc fmap f).isSome))).headD "")).1 ++ ".pdf")) = true
      · rw [if_pos hs]
        exact ⟨_, by rw [hw, List.append_assoc, List.append_assoc]⟩
      · rw [if_neg hs]
        exact ⟨_, by rw [hw, List.append_assoc, List.append_assoc]⟩
    · rw [if_neg hc]
      exact ⟨_, by rw [hw, List.append_assoc, List.append_assoc]⟩

theorem pass2_log_extends (env : Env) (fmap : List (String × String))
    (nk : List String) (dir : String) (tot : Nat) :
    ∀ (fams : List (String × List String)) (st : P2),
      ∃ w, (fams.foldl (pass2Step env fmap nk dir tot) st).log = st.log ++ w := by
  intro fams
  induction fams with
  | nil => intro st; exact ⟨[], by simp⟩
  | cons f fs ih =>
    intro st
    rcases pass2Step_log_extends env fmap nk dir tot st f with ⟨w1, hw1⟩
    rcases ih (pass2Step env fmap nk dir tot st f) with ⟨w2, hw2⟩
    exact ⟨w1 ++ w2, by rw [List.foldl_cons, hw2, hw1, List.append_assoc]⟩

theorem qcLargest_log_extends (env : Env) (largest : Option String)
    (log : List String) (tr : List Ev) :
    ∃ w, (qcLargest env largest log tr).1 = log ++ w := by
  cases largest with
  | none => exact ⟨[], by simp [qcLargest]⟩
  | some p =>
    by_cases he : env.fExists p = true
    · by_cases hc : env.copyOk p = true
      · exact ⟨["Copied largest family PDF to QC Docs: " ++ basename p],
          by simp [qcLargest, he, hc]⟩
      · exact ⟨["ERROR copying largest family PDF to QC Docs."],
          by simp [qcLargest, he, hc]⟩
    · exact ⟨[], by simp [qcLargest, he]⟩

theorem qcNative_log_extends (env : Env) (largest firstNative : Option String)
    (nk : List String) (copied : List String) (log : List String) (tr : List Ev) :
    ∃ w, (qcNative env largest firstNative nk copied log tr).1 = log ++ w := by
  cases firstNative with
  | none =>
    by_cases hn : nk = []
    · exact ⟨["No families contained native placeholders; no specific QC doc for this criterion."],
        by simp [qcNative, hn]⟩
    · exact ⟨[], by simp [qcNative, hn]⟩
  | some q =>
    by_cases he : env.fExists q = true
    · by_cases hl : largest ≠ some q
      · by_cases hc : env.copyOk q = true
        · exact ⟨["Copied first PDF with native placeholder to QC Docs: " ++ basename q],
            by simp [qcNative, he, hl, hc]⟩
        · exact ⟨["ERROR copying PDF with native to QC Docs."],
            by simp [qcNative, he, hl, hc]⟩
      · by_cases hq : q ∈ copied
        · exact ⟨[], by simp [qcNative, he, hl, hq]⟩
        · exact ⟨["Largest family PDF (" ++ basename q ++
            ") also contained a native; already copied for QC."],
            by simp [qcNative, he, hl, hq]⟩
    · by_cases hn : nk = []
      · exact ⟨["No families contained native placeholders; no specific QC doc for this criterion."],
          by simp [qcNative, he, hn]⟩
      · exact ⟨[], by simp [qcNative, he, hn]⟩

theorem qcPhase_log_extends (env : Env) (largest firstNative : Option String)
    (nk : List String) (log : List String) (tr : List Ev) :
    ∃ w, (qcPhase env largest firstNative nk log tr).1 = log ++ w := by
  unfold qcPhase
  rcases qcNative_log_extends env largest firstNative nk
      (qcLargest env largest (log ++ ["Processing QC documents..."]) tr).2.1
      (qcLargest env largest (log ++ ["Processing QC documents..."]) tr).1
      (qcLargest env largest (log ++ ["Processing QC documents..."]) tr).2.2
    with ⟨w2, hw2⟩
  rcases qcLargest_log_extends env largest (log ++ ["Processing QC documents..."]) tr
    with ⟨w1, hw1⟩
  refine ⟨["Processing QC documents..."] ++ (w1 ++ w2), ?_⟩
  rw [hw2, hw1, List.append_assoc, List.append_assoc]

theorem foldl_cleanupStep_eq (env : Env) :
    ∀ (ps : List String) (acc : List String × List Ev),
      ps.foldl (cleanupStep env) acc
        = (acc.1 ++ cleanupWarnings env ps, acc.2 ++ cleanupDels env ps) := by
  intro ps
  induction ps with
  | nil => intro acc; simp [cleanupWarnings, cleanupDels]
  | cons p ps ih =>
    intro acc
    rw [List.foldl_cons, ih]
    by_cases he : env.fExists p = true
    · by_cases hu : env.unlinkOk p = true
      · simp [cleanupStep, cleanupWarnings, cleanupDels, he, hu, List.append_assoc]
      · simp [cleanupStep, cleanupWarnings, cleanupDels, he, hu, List.append_assoc]
    · simp [cleanupStep, cleanupWarnings, cleanupDels, he]

/-! ## Pass-1 exclusion lemmas and C5 -/

theorem pass1Step_not_mem (env : Env) (folder : String) {fname : String} {st : P1}
    (g : String) (hg : g ≠ fname)
    (hfam : ∀ ms ∈ st.families, fname ∉ ms.2)
    (hmap : lookupAssoc st.fmap fname = none) :
    (∀ ms ∈ (pass1Step env folder st g).families, fname ∉ ms.2)
    ∧ lookupAssoc (pass1Step env folder st g).fmap fname = none := by
  have hfne : fname ≠ g := fun h => hg h.symm
  simp only [pass1Step]
  by_cases hd : env.isDir (folder ++ "/" ++ g) = true
  · rw [if_pos hd]; exact ⟨hfam, hmap⟩
  · rw [if_neg hd]
    by_cases ht : isTmpName g = true
    · rw [if_pos ht]; exact ⟨hfam, hmap⟩
    · rw [if_neg ht]
      have hfam1 : ∀ ms ∈ assocAppend st.families (extract_family_key g) g, fname ∉ ms.2 := by
        intro ms hms hx
        rcases mem_assocAppend_members st.families _ g fname ms hms hx with ⟨ms', hms', hx'⟩ | h
        · exact hfam ms' hms' hx'
        · exact hfne h
      by_cases hp : pyLower (splitext g).2 = ".pdf"
      · rw [if_pos hp]
        refine ⟨hfam1, ?_⟩
        rw [lookupAssoc_assocSet_ne st.fmap g (folder ++ "/" ++ g) fname hfne]
        exact hmap
      · rw [if_neg hp]
        cases hs : env.synth g with
        | some p =>
          refine ⟨hfam1, ?_⟩
          rw [lookupAssoc_assocSet_ne st.fmap g p fname hfne]
          exact hmap
        | none =>
          refine ⟨?_, hmap⟩
          intro ms hms hx
          rcases mem_assocRemove_members _ _ g fname ms hms hx with ⟨ms', hms', hx'⟩
          exact hfam1 ms' hms' hx'

theorem pass1Step_self_fail (env : Env) (folder : String) {fname : String} {st : P1}
    (hdir : env.isDir (folder ++ "/" ++ fname) = false)
    (htmp : isTmpName fname = false)
    (hext : pyLower (splitext fname).2 ≠ ".pdf")
    (hsynth : env.synth fname = none)
    (hfam : ∀ ms ∈ st.families, fname ∉ ms.2)
    (hmap : lookupAssoc st.fmap fname = none) :
    (∀ ms ∈ (pass1Step env folder st fname).families, fname ∉ ms.2)
    ∧ lookupAssoc (pass1Step env folder st fname).fmap fname = none
    ∧ ("ERROR: Failed to create placeholder for " ++ fname ++ ". It will be skipped.")
        ∈ (pass1Step env folder st fname).log := by
  simp only [pass1Step]
  rw [if_neg (by simp [hdir]), if_neg (by simp [htmp]), if_neg hext, hsynth]
  refine ⟨?_, hmap, ?_⟩
  · intro ms hms hx
    exact absurd hx (assocRemove_assocAppend_self st.families _ fname hfam ms hms)
  · exact List.mem_append_right _ (List.mem_singleton_self _)

theorem pass1_not_mem (env : Env) (folder : String) {fname : String} :
    ∀ (names : List String) (st : P1), fname ∉ names →
      (∀ ms ∈ st.families, fname ∉ ms.2) → lookupAssoc st.fmap fname = none →
      (∀ ms ∈ (pass1 env folder names st).families, fname ∉ ms.2)
      ∧ lookupAssoc (pass1 env folder names st).fmap fname = none := by
  intro names
  induction names with
  | nil => intro st _ hfam hmap; exact ⟨hfam, hmap⟩
  | cons g gs ih =>
    intro st hnot hfam hmap
    have hg : g ≠ fname := fun h => hnot (h ▸ List.mem_cons_self g gs)
    rcases pass1Step_not_mem env folder g hg hfam hmap with ⟨h1, h2⟩
    exact ih (pass1Step env folder st g) (fun h => hnot (List.mem_cons_of_mem _ h)) h1 h2

theorem pass2Step_results_mono {env : Env} {fmap : List (String × String)}
    {nk : List String} {dir : String} {tot : Nat} {st : P2} {fam : String × List String}
    {r : FamResult} (h : r ∈ st.results) :
    r ∈ (pass2Step env fmap nk dir tot st fam).results := by
  rcases pass2Step_results_cases env fmap nk dir tot st fam with ⟨_, he⟩ | ⟨r', he, _⟩ <;>
    rw [he]
  · exact h
  · exact List.mem_append_left _ h

theorem pass2_results_mono (env : Env) (fmap : List (String × String))
    (nk : List String) (dir : String) (tot : Nat) :
    ∀ (fams : List (String × List String)) (st : P2) (r : FamResult), r ∈ st.results →
      r ∈ (fams.foldl (pass2Step env fmap nk dir tot) st).results := by
  intro fams
  induction fams with
  | nil => intro st r h; exact h
  | cons f fs ih =>
    intro st r h
    rw [List.foldl_cons]
    exact ih _ r (pass2Step_results_mono h)

theorem pass2_complete (env : Env) (fmap : List (String × String))
    (nk : List String) (dir : String) (tot : Nat) :
    ∀ (fams : List (String × List String)) (st : P2) (fam : String × List String),
      fam ∈ fams → ∀ g ∈ fam.2, (lookupAssoc fmap g).isSome = true →
        ∃ r ∈ (fams.foldl (pass2Step env fmap nk dir tot) st).results,
          r.key = fam.1 ∧ g ∈ r.sorted := by
  intro fams
  induction fams with
  | nil => intro st fam h; cases h
  | cons f fs ih =>
    intro st fam hfam g hg hmap
    rw [List.foldl_cons]
    rcases List.mem_cons.mp hfam with rfl | hfam'
    · have hgv : g ∈ fam.2.filter (fun f => (lookupAssoc fmap f).isSome) :=
        List.mem_filter.mpr ⟨hg, hmap⟩
      rcases pass2Step_results_cases env fmap nk dir tot st fam with ⟨hv, _⟩ | ⟨r, he, hspec⟩
      · exact absurd hv (List.ne_nil_of_mem hgv)
      · refine ⟨r, ?_, hspec.1, ?_⟩
        · refine pass2_results_mono env fmap nk dir tot fs _ r ?_
          rw [he]
          exact List.mem_append_right _ (List.mem_singleton_self r)
        · rw [hspec.2.1]
          exact (List.mem_insertionSort _).mpr hgv
    · exact ih (pass2Step env fmap nk dir tot st f) fam hfam' g hg hmap

theorem mem_runOk_log (env : Env) (folder : String) (names : List String) {line : String}
    (h : line ∈ (pass1Of env folder names).log) : line ∈ (runOk env folder names).log := by
  have h2 : line ∈ (pass2Of env folder names).log := by
    unfold pass2Of pass2
    rcases pass2_log_extends env (pass1Of env folder names).fmap
        (pass1Of env folder names).nativeKeys (mergedDirPath folder)
        (pass1Of env folder names).families.length (pass1Of env folder names).families
        { log := (pass1Of env folder names).log ++
            ["Pass 1 completed.", "Starting Pass 2: Merging PDF families using pikepdf..."],
          results := [], maxCount := 0, largest := none, firstNative := none,
          trace := [], processed := 0, progress := [] } with ⟨w, hw⟩
    rw [hw]
    exact List.mem_append_left _ (List.mem_append_left _ h)
  have h3 : line ∈ (qcOf env folder names).1 := by
    unfold qcOf
    rcases qcPhase_log_extends env (pass2Of env folder names).largest
        (pass2Of env folder names).firstNative (pass1Of env folder names).nativeKeys
        ((pass2Of env folder names).log ++ ["Pass 2 completed."])
        (pass2Of env folder names).trace with ⟨w, hw⟩
    rw [hw]
    exact List.mem_append_left _ (List.mem_append_left _ h2)
  have h4 : line ∈ (csvOf env folder names).2 := by
    unfold csvOf
    by_cases hc : env.csvOk = true
    · rw [if_pos hc]
      exact List.mem_append_left _ h3
    · rw [if_neg hc]
      exact List.mem_append_left _ h3
  have h5 : line ∈ (cleanupOf env folder names).1 := by
    unfold cleanupOf
    rw [foldl_cleanupStep_eq]
    exact List.mem_append_left _ (List.mem_append_left _ h4)
  exact List.mem_append_left _ h5

/-- C5: when placeholder synthesis fails for a non-PDF item during
Pass 1, the failure is logged, the item is removed from its family's
member list and from the path map (so it is excluded from the Pass-2
merge entirely, with a single synthesis consultation per item), while
every remaining member of every family that has a resolved path is still
carried into a Pass-2 merge record. -/
theorem C5_synth_failure (env : Env) (folder : String) (n1 n2 : List String) (fname : String)
    (h1 : env.mkdirsOk = true) (h2 : env.listing = some (n1 ++ fname :: n2))
    (hn1 : fname ∉ n1) (hn2 : fname ∉ n2)
    (hdir : env.isDir (folder ++ "/" ++ fname) = false)
    (htmp : isTmpName fname = false)
    (hext : pyLower (splitext fname).2 ≠ ".pdf")
    (hsynth : env.synth fname = none) :
    ("ERROR: Failed to create placeholder for " ++ fname ++ ". It will be skipped.")
        ∈ (run env folder).log
    ∧ (∀ ms ∈ (run env folder).families, fname ∉ ms.2)
    ∧ lookupAssoc (run env folder).fmap fname = none
    ∧ (∀ r ∈ (run env folder).famResults, fname ∉ r.sorted)
    ∧ (∀ fam ∈ (run env folder).families, ∀ g ∈ fam.2,
        (lookupAssoc (run env folder).fmap g).isSome = true →
          ∃ r ∈ (run env folder).famResults, r.key = fam.1 ∧ g ∈ r.sorted) := by
  rw [run_ok env folder (n1 ++ fname :: n2) h1 h2]
  have hdec : pass1Of env folder (n1 ++ fname :: n2)
      = pass1 env folder n2
          (pass1Step env folder (pass1 env folder n1 (p1Init folder)) fname) := by
    unfold pass1Of pass1
    rw [List.foldl_append, List.foldl_cons]
  have hA : (∀ ms ∈ (pass1 env folder n1 (p1Init folder)).families, fname ∉ ms.2)
      ∧ lookupAssoc (pass1 env folder n1 (p1Init folder)).fmap fname = none := by
    refine pass1_not_mem env folder n1 (p1Init folder) hn1 ?_ ?_
    · intro ms hms; cases hms
    · rfl
  rcases pass1Step_self_fail env folder hdir htmp hext hsynth hA.1 hA.2 with ⟨hB1, hB2, hB3⟩
  have hC := pass1_not_mem env folder n2
    (pass1Step env folder (pass1 env folder n1 (p1Init folder)) fname) hn2 hB1 hB2
  have hfam : ∀ ms ∈ (pass1Of env folder (n1 ++ fname :: n2)).families, fname ∉ ms.2 := by
    rw [hdec]; exact hC.1
  have hmap : lookupAssoc (pass1Of env folder (n1 ++ fname :: n2)).fmap fname = none := by
    rw [hdec]; exact hC.2
  have hlog : ("ERROR: Failed to create placeholder for " ++ fname ++ ". It will be skipped.")
      ∈ (pass1Of env folder (n1 ++ fname :: n2)).log := by
    rw [hdec]
    rcases pass1_log_extends env folder n2
        (pass1Step env folder (pass1 env folder n1 (p1Init folder)) fname) with ⟨w, hw⟩
    rw [hw]
    exact List.mem_append_left _ hB3
  refine ⟨mem_runOk_log env folder _ hlog, hfam, hmap, ?_, ?_⟩
  · intro r hr
    have hr2 : r ∈ (pass2Of env folder (n1 ++ fname :: n2)).results := hr
    unfold pass2Of pass2 at hr2
    rcases pass2_results_spec env (pass1Of env folder (n1 ++ fname :: n2)).fmap
        (pass1Of env folder (n1 ++ fname :: n2)).nativeKeys (mergedDirPath folder)
        (pass1Of env folder (n1 ++ fname :: n2)).families.length
        (pass1Of env folder (n1 ++ fname :: n2)).families _ r hr2 with h | ⟨fam, hfm, hspec⟩
    · simp at h
    · rw [hspec.2.1]
      intro hmem
      have := List.mem_filter.mp ((List.mem_insertionSort _).mp hmem)
      rw [hmap] at this
      simp at this
  · intro fam hfm g hg hmapg
    have := pass2_complete env (pass1Of env folder (n1 ++ fname :: n2)).fmap
      (pass1Of env folder (n1 ++ fname :: n2)).nativeKeys (mergedDirPath folder)
      (pass1Of env folder (n1 ++ fname :: n2)).families.length
      (pass1Of env folder (n1 ++ fname :: n2)).families
      { log := (pass1Of env folder (n1 ++ fname :: n2)).log ++
          ["Pass 1 completed.", "Starting Pass 2: Merging PDF families using pikepdf..."],
        results := [], maxCount := 0, largest := none, firstNative := none,
        trace := [], processed := 0, progress := [] } fam hfm g hg hmapg
    exact this

/-- Witness for C5: a concrete run in which the sole native item of
family `A` fails synthesis while the remaining member still merges. -/
theorem C5_synth_failure_witness :
    ("ERROR: Failed to create placeholder for " ++ "A.msg" ++ ". It will be skipped.")
        ∈ (run { okEnv ["A.pdf", "A.msg"] with synth := fun _ => none } "src").log
    ∧ (∀ ms ∈ (run { okEnv ["A.pdf", "A.msg"] with synth := fun _ => none } "src").families,
        "A.msg" ∉ ms.2)
    ∧ lookupAssoc (run { okEnv ["A.pdf", "A.msg"] with synth := fun _ => none } "src").fmap
        "A.msg" = none
    ∧ (∀ r ∈ (run { okEnv ["A.pdf", "A.msg"] with synth := fun _ => none } "src").famResults,
        "A.msg" ∉ r.sorted)
    ∧ (∀ fam ∈ (run { okEnv ["A.pdf", "A.msg"] with synth := fun _ => none } "src").families,
        ∀ g ∈ fam.2,
        (lookupAssoc (run { okEnv ["A.pdf", "A.msg"] with synth := fun _ => none } "src").fmap
            g).isSome = true →
          ∃ r ∈ (run { okEnv ["A.pdf", "A.msg"] with synth := fun _ => none } "src").famResults,
            r.key = fam.1 ∧ g ∈ r.sorted) :=
  C5_synth_failure { okEnv ["A.pdf", "A.msg"] with synth := fun _ => none } "src"
    ["A.pdf"] [] "A.msg" rfl rfl (by decide) (by decide) rfl (by decide) (by decide) rfl

/-! ## C7: the coincidence branch of QC selection -/

/-- C7: the source logs the "also contained a native; already copied"
line only when the first-native output equals the largest-family output
and that output is NOT in the copied set — i.e. only when the preceding
copy failed (`elif ... not in qc_files_copied_for_log`).  In the ordinary
run below the two paths coincide and the copy succeeds, so the file is
copied once but the coincidence is never logged, contradicting the claim;
the line appears exactly when the copy fails instead.  The no-native half
of the claim does hold (last conjunct). -/
theorem C7_coincidence_not_logged :
    (run (okEnv ["A.pdf", "A.msg"]) "src").firstNative
        = some "src/Merged Output/Merged PDFs/A.pdf"
    ∧ (run (okEnv ["A.pdf", "A.msg"]) "src").largest
        = some "src/Merged Output/Merged PDFs/A.pdf"
    ∧ Ev.copy "src/Merged Output/Merged PDFs/A.pdf"
        ∈ (run (okEnv ["A.pdf", "A.msg"]) "src").trace
    ∧ ("Largest family PDF (A.pdf) also contained a native; already copied for QC.")
        ∉ (run (okEnv ["A.pdf", "A.msg"]) "src").log
    ∧ ("Largest family PDF (A.pdf) also contained a native; already copied for QC.")
        ∈ (run { okEnv ["A.pdf", "A.msg"] with copyOk := fun _ => false } "src").log
    ∧ ("No families contained native placeholders; no specific QC doc for this criterion.")
        ∈ (run (okEnv ["A.pdf"]) "src").log := by
  decide

/-! ## C8: the CSV log dump -/

/-- C8 counterexample: the cleanup-completed line is emitted during the
run but is absent from the written CSV rows, because the CSV is written
before the cleanup phase logs. -/
theorem C8_csv_not_whole_log :
    ("Temporary file cleanup completed.") ∈ (run (okEnv ["A.pdf"]) "src").log
    ∧ (run (okEnv ["A.pdf"]) "src").csvRows.isSome = true
    ∧ ("Temporary file cleanup completed.")
        ∉ ((run (okEnv ["A.pdf"]) "src").csvRows.getD []) := by
  decide

/-- C8 (amended): for every run that passes the fatal pre-Pass-1 checks
and whose CSV write succeeds, the CSV holds the header row `Message`
followed by exactly the log lines emitted before the write, in emission
order; the lines emitted afterwards are exactly the save-confirmation
line and the cleanup lines, which are not in the CSV. -/
theorem C8_csv_rows (env : Env) (folder : String) (names : List String)
    (h1 : env.mkdirsOk = true) (h2 : env.listing = some names) (h3 : env.csvOk = true) :
    (run env folder).csvRows = some ("Message" :: (qcOf env folder names).1)
    ∧ (run env folder).log = (qcOf env folder names).1 ++
        ("Merge log saved to: Merged Output/Merge Log.csv" ::
          "Cleaning up temporary files..." ::
            (cleanupWarnings env (pass1Of env folder names).placeholders ++
              ["Temporary file cleanup completed."])) := by
  rw [run_ok env folder names h1 h2]
  constructor
  · show (csvOf env folder names).1 = _
    unfold csvOf
    rw [if_pos h3]
  · show (cleanupOf env folder names).1 ++ ["Temporary file cleanup completed."] = _
    unfold cleanupOf
    rw [foldl_cleanupStep_eq]
    show ((csvOf env folder names).2 ++ ["Cleaning up temporary files..."]) ++
      cleanupWarnings env (pass1Of env folder names).placeholders ++ _ = _
    unfold csvOf
    rw [if_pos h3]
    simp [List.append_assoc]

/-- Witness for the amended C8 at a concrete successful run. -/
theorem C8_csv_rows_witness :
    (run (okEnv ["A.pdf"]) "src").csvRows
        = some ("Message" :: (qcOf (okEnv ["A.pdf"]) "src" ["A.pdf"]).1)
    ∧ (run (okEnv ["A.pdf"]) "src").log = (qcOf (okEnv ["A.pdf"]) "src" ["A.pdf"]).1 ++
        ("Merge log saved to: Merged Output/Merge Log.csv" ::
          "Cleaning up temporary files..." ::
            (cleanupWarnings (okEnv ["A.pdf"])
                (pass1Of (okEnv ["A.pdf"]) "src" ["A.pdf"]).placeholders ++
              ["Temporary file cleanup completed."])) :=
  C8_csv_rows (okEnv ["A.pdf"]) "src" ["A.pdf"] rfl rfl rfl

/-! ## C9: placeholder cleanup -/

theorem pass1Step_placeholders_nodup (env : Env) (folder : String) (st : P1) (f : String)
    (h : st.placeholders.Nodup) : (pass1Step env folder st f).placeholders.Nodup := by
  simp only [pass1Step]
  by_cases hd : env.isDir (folder ++ "/" ++ f) = true
  · rwa [if_pos hd]
  · rw [if_neg hd]
    by_cases ht : isTmpName f = true
    · rwa [if_pos ht]
    · rw [if_neg ht]
      by_cases hp : pyLower (splitext f).2 = ".pdf"
      · rwa [if_pos hp]
      · rw [if_neg hp]
        cases hs : env.synth f with
        | none => exact h
        | some p => exact insertNew_nodup p h

theorem pass1_placeholders_nodup (env : Env) (folder : String) :
    ∀ (names : List String) (st : P1), st.placeholders.Nodup →
      (pass1 env folder names st).placeholders.Nodup := by
  intro names
  induction names with
  | nil => intro st h; exact h
  | cons f fs ih =>
    intro st h
    exact ih (pass1Step env folder st f) (pass1Step_placeholders_nodup env folder st f h)

theorem pass2Step_trace_cases (env : Env) (fmap : List (String × String))
    (nk : List String) (dir : String) (tot : Nat) (st : P2) (fam : String × List String) :
    (pass2Step env fmap nk dir tot st fam).trace = st.trace
    ∨ ∃ p, (pass2Step env fmap nk dir tot st fam).trace = st.trace ++ [Ev.save p] := by
  simp only [pass2Step]
  by_cases hv : fam.2.filter (fun f => (lookupAssoc fmap f).isSome) = []
  · rw [if_pos hv]; exact Or.inl rfl
  · rw [if_neg hv]
    by_cases hc : 0 < ((sortFamily (fam.2.filter (fun f => (lookupAssoc fmap f).isSome))).foldl
        (memberStep env fmap)
        { pages := 0, count := 0,
          log := st.log ++ ["Processing family: " ++ fam.1 ++ ". Files to merge (in order): " ++
            String.intercalate ", "
              (sortFamily (fam.2.filter (fun f => (lookupAssoc fmap f).isSome)))] }).count
    · rw [if_pos hc]
      by_cases hs : env.saveOk (dir ++ "/" ++
          ((splitext ((sortFamily (fam.2.filter
            (fun f => (lookupAssoc fmap f).isSome))).headD "")).1 ++ ".pdf")) = true
      · rw [if_pos hs]
        exact Or.inr ⟨_, rfl⟩
      · rw [if_neg hs]
        exact Or.inl rfl
    · rw [if_neg hc]
      exact Or.inl rfl

theorem pass2_trace_no_del (env : Env) (fmap : List (String × String))
    (nk : List String) (dir : String) (tot : Nat) :
    ∀ (fams : List (String × List String)) (st : P2),
      (∀ e ∈ st.trace, e.isDel = false) →
      ∀ e ∈ (fams.foldl (pass2Step env fmap nk dir tot) st).trace, e.isDel = false := by
  intro fams
  induction fams with
  | nil => intro st h; exact h
  | cons f fs ih =>
    intro st h
    rw [List.foldl_cons]
    refine ih (pass2Step env fmap nk dir tot st f) ?_
    rcases pass2Step_trace_cases env fmap nk dir tot st f with he | ⟨p, he⟩ <;> rw [he]
    · exact h
    · intro e hme
      rcases List.mem_append.mp hme with hme | hme
      · exact h e hme
      · rw [List.mem_singleton.mp hme]
        rfl

theorem qcLargest_trace_cases (env : Env) (largest : Option String)
    (log : List String) (tr : List Ev) :
    (qcLargest env largest log tr).2.2 = tr
    ∨ ∃ p, (qcLargest env largest log tr).2.2 = tr ++ [Ev.copy p] := by
  cases largest with
  | none => exact Or.inl rfl
  | some p =>
    by_cases he : env.fExists p = true
    · by_cases hc : env.copyOk p = true
      · refine Or.inr ⟨p, ?_⟩
        simp [qcLargest, he, hc]
      · refine Or.inl ?_
        simp [qcLargest, he, hc]
    · refine Or.inl ?_
      simp [qcLargest, he]

theorem qcNative_trace_cases (env : Env) (largest firstNative : Option String)
    (nk : List String) (copied : List String) (log : List String) (tr : List Ev) :
    (qcNative env largest firstNative nk copied log tr).2 = tr
    ∨ ∃ q, (qcNative env largest firstNative nk copied log tr).2 = tr ++ [Ev.copy q] := by
  cases firstNative with
  | none =>
    by_cases hn : nk = [] <;> [exact Or.inl (by simp [qcNative, hn]);
      exact Or.inl (by simp [qcNative, hn])]
  | some q =>
    by_cases he : env.fExists q = true
    · by_cases hl : largest ≠ some q
      · by_cases hc : env.copyOk q = true
        · exact Or.inr ⟨q, by simp [qcNative, he, hl, hc]⟩
        · exact Or.inl (by simp [qcNative, he, hl, hc])
      · by_cases hq : q ∈ copied
        · exact Or.inl (by simp [qcNative, he, hl, hq])
        · exact Or.inl (by simp [qcNative, he, hl, hq])
    · by_cases hn : nk = []
      · exact Or.inl (by simp [qcNative, he, hn])
      · exact Or.inl (by simp [qcNative, he, hn])

theorem qcPhase_trace_no_del (env : Env) (largest firstNative : Option String)
    (nk : List String) (log : List String) (tr : List Ev)
    (h : ∀ e ∈ tr, e.isDel = false) :
    ∀ e ∈ (qcPhase env largest firstNative nk log tr).2, e.isDel = false := by
  unfold qcPhase
  have h1 : ∀ e ∈ (qcLargest env largest (log ++ ["Processing QC documents..."]) tr).2.2,
      e.isDel = false := by
    rcases qcLargest_trace_cases env largest (log ++ ["Processing QC documents..."]) tr
      with he | ⟨p, he⟩ <;> rw [he]
    · exact h
    · intro e hme
      rcases List.mem_append.mp hme with hme | hme
      · exact h e hme
      · rw [List.mem_singleton.mp hme]; rfl
  rcases qcNative_trace_cases env largest firstNative nk
      (qcLargest env largest (log ++ ["Processing QC documents..."]) tr).2.1
      (qcLargest env largest (log ++ ["Processing QC documents..."]) tr).1
      (qcLargest env largest (log ++ ["Processing QC documents..."]) tr).2.2
    with he | ⟨q, he⟩ <;> rw [he]
  · exact h1
  · intro e hme
    rcases List.mem_append.mp hme with hme | hme
    · exact h1 e hme
    · rw [List.mem_singleton.mp hme]; rfl

/-- C9: for every run that passes the fatal pre-Pass-1 checks, the
deletion events are exactly the cleanup-phase deletions of the registered
placeholders (a duplicate-free list), performed after every save and QC
copy event; when every placeholder still exists, each placeholder the
environment can unlink is deleted exactly once; a failed deletion is
logged as a warning; and the run still reports success. -/
theorem C9_cleanup_policy (env : Env) (folder : String) (names : List String)
    (h1 : env.mkdirsOk = true) (h2 : env.listing = some names) :
    (run env folder).trace
        = (qcOf env folder names).2 ++ cleanupDels env (run env folder).placeholders
    ∧ (∀ e ∈ (qcOf env folder names).2, e.isDel = false)
    ∧ (∀ e ∈ cleanupDels env (run env folder).placeholders, e.isDel = true)
    ∧ (run env folder).placeholders.Nodup
    ∧ ((∀ p ∈ (run env folder).placeholders, env.fExists p = true) →
        cleanupDels env (run env folder).placeholders
          = ((run env folder).placeholders.filter (fun p => env.unlinkOk p)).map Ev.del)
    ∧ (run env folder).verdict = true
    ∧ (∀ p ∈ (run env folder).placeholders, env.fExists p = true → env.unlinkOk p = false →
        ("WARNING: Could not delete temporary placeholder " ++ p) ∈ (run env folder).log) := by
  rw [run_ok env folder names h1 h2]
  refine ⟨?_, ?_, ?_, ?_, ?_, rfl, ?_⟩
  · show (cleanupOf env folder names).2 = _
    unfold cleanupOf
    rw [foldl_cleanupStep_eq]
    rfl
  · unfold qcOf
    refine qcPhase_trace_no_del env _ _ _ _ _ ?_
    unfold pass2Of pass2
    refine pass2_trace_no_del env _ _ _ _ _ _ ?_
    intro e he
    cases he
  · intro e he
    rcases List.mem_map.mp he with ⟨p, _, rfl⟩
    rfl
  · show (pass1Of env folder names).placeholders.Nodup
    unfold pass1Of
    exact pass1_placeholders_nodup env folder names (p1Init folder) List.nodup_nil
  · intro hex
    unfold cleanupDels
    congr 1
    refine List.filter_congr ?_
    intro p hp
    rw [hex p hp]
    simp
  · intro p hp hex hu
    show ("WARNING: Could not delete temporary placeholder " ++ p)
      ∈ (cleanupOf env folder names).1 ++ ["Temporary file cleanup completed."]
    refine List.mem_append_left _ ?_
    unfold cleanupOf
    rw [foldl_cleanupStep_eq]
    refine List.mem_append_right _ ?_
    unfold cleanupWarnings
    refine List.mem_map.mpr ⟨p, ?_, rfl⟩
    refine List.mem_filter.mpr ⟨hp, ?_⟩
    rw [hex, hu]
    rfl

/-- Witness for C9 at a run with one placeholder whose deletion fails. -/
theorem C9_cleanup_policy_witness :
    (run { okEnv ["A.pdf", "A.msg"] with unlinkOk := fun _ => false } "src").trace
        = (qcOf { okEnv ["A.pdf", "A.msg"] with unlinkOk := fun _ => false } "src"
              ["A.pdf", "A.msg"]).2 ++
          cleanupDels { okEnv ["A.pdf", "A.msg"] with unlinkOk := fun _ => false }
            (run { okEnv ["A.pdf", "A.msg"] with unlinkOk := fun _ => false } "src").placeholders
    ∧ (run { okEnv ["A.pdf", "A.msg"] with unlinkOk := fun _ => false } "src").placeholders.Nodup
    ∧ cleanupDels { okEnv ["A.pdf", "A.msg"] with unlinkOk := fun _ => false }
        (run { okEnv ["A.pdf", "A.msg"] with unlinkOk := fun _ => false } "src").placeholders
        = ((run { okEnv ["A.pdf", "A.msg"] with unlinkOk := fun _ => false }
            "src").placeholders.filter
              (fun p => ({ okEnv ["A.pdf", "A.msg"] with
                unlinkOk := fun _ => false } : Env).unlinkOk p)).map Ev.del
    ∧ (run { okEnv ["A.pdf", "A.msg"] with unlinkOk := fun _ => false } "src").verdict = true
    ∧ ("WARNING: Could not delete temporary placeholder " ++ "tmpph_A.msg")
        ∈ (run { okEnv ["A.pdf", "A.msg"] with unlinkOk := fun _ => false } "src").log := by
  have h := C9_cleanup_policy { okEnv ["A.pdf", "A.msg"] with unlinkOk := fun _ => false }
    "src" ["A.pdf", "A.msg"] rfl rfl
  exact ⟨h.1, h.2.2.2.1, h.2.2.2.2.1 (by decide), h.2.2.2.2.2.1,
    h.2.2.2.2.2.2 "tmpph_A.msg" (by decide) rfl rfl⟩

/-! ## C10: the native-containing flag -/

theorem pass1Step_nativeKeys (env : Env) (folder : String) (st : P1) (f fk : String) :
    fk ∈ (pass1Step env folder st f).nativeKeys ↔ fk ∈ st.nativeKeys ∨
      (env.isDir (folder ++ "/" ++ f) = false ∧ isTmpName f = false ∧
        pyLower (splitext f).2 ≠ ".pdf" ∧ (env.synth f).isSome = true ∧
        extract_family_key f = fk) := by
  simp only [pass1Step]
  by_cases hd : env.isDir (folder ++ "/" ++ f) = true
  · rw [if_pos hd]
    have : ¬ env.isDir (folder ++ "/" ++ f) = false := by simp [hd]
    tauto
  · rw [if_neg hd]
    have hd' : env.isDir (folder ++ "/" ++ f) = false := by
      cases h : env.isDir (folder ++ "/" ++ f)
      · rfl
      · exact absurd h hd
    by_cases ht : isTmpName f = true
    · rw [if_pos ht]
      have : ¬ isTmpName f = false := by simp [ht]
      tauto
    · rw [if_neg ht]
      have ht' : isTmpName f = false := by
        cases h : isTmpName f
        · rfl
        · exact absurd h ht
      by_cases hp : pyLower (splitext f).2 = ".pdf"
      · rw [if_pos hp]
        have : ¬ pyLower (splitext f).2 ≠ ".pdf" := by simp [hp]
        tauto
      · rw [if_neg hp]
        cases hs : env.synth f with
        | none =>
          have : ¬ (env.synth f).isSome = true := by simp [hs]
          tauto
        | some p =>
          rw [mem_insertNew]
          constructor
          · rintro (h | h)
            · exact Or.inl h
            · exact Or.inr ⟨hd', ht', hp, rfl, h.symm⟩
          · rintro (h | ⟨_, _, _, _, h⟩)
            · exact Or.inl h
            · exact Or.inr h.symm

theorem pass1_nativeKeys (env : Env) (folder : String) :
    ∀ (names : List String) (st : P1) (fk : String),
      fk ∈ (pass1 env folder names st).nativeKeys ↔ fk ∈ st.nativeKeys ∨
        ∃ f ∈ names, env.isDir (folder ++ "/" ++ f) = false ∧ isTmpName f = false ∧
          pyLower (splitext f).2 ≠ ".pdf" ∧ (env.synth f).isSome = true ∧
          extract_family_key f = fk := by
  intro names
  induction names with
  | nil =>
    intro st fk
    simp [pass1]
  | cons g gs ih =>
    intro st fk
    show fk ∈ (pass1 env folder gs (pass1Step env folder st g)).nativeKeys ↔ _
    rw [ih (pass1Step env folder st g) fk, pass1Step_nativeKeys env folder st g fk]
    constructor
    · rintro ((h | h) | ⟨f, hf, hc⟩)
      · exact Or.inl h
      · exact Or.inr ⟨g, List.mem_cons_self _ _, h⟩
      · exact Or.inr ⟨f, List.mem_cons_of_mem _ hf, hc⟩
    · rintro (h | ⟨f, hf, hc⟩)
      · exact Or.inl (Or.inl h)
      · rcases List.mem_cons.mp hf with rfl | hf'
        · exact Or.inl (Or.inr hc)
        · exact Or.inr ⟨f, hf', hc⟩

/-- C10: a family key carries the native-containing flag consulted by
Pass 2 and QC selection exactly when some processed non-PDF item of that
family had its placeholder synthesis succeed in Pass 1; in particular a
family whose every non-PDF member failed synthesis is not
native-containing, and every Pass-2 record's native field agrees with the
flag for its key. -/
theorem C10_native_flag (env : Env) (folder : String) (names : List String)
    (h1 : env.mkdirsOk = true) (h2 : env.listing = some names) :
    (∀ fk, fk ∈ (run env folder).nativeKeys ↔
      ∃ f ∈ names, env.isDir (folder ++ "/" ++ f) = false ∧ isTmpName f = false ∧
        pyLower (splitext f).2 ≠ ".pdf" ∧ (env.synth f).isSome = true ∧
        extract_family_key f = fk)
    ∧ (∀ r ∈ (run env folder).famResults,
        r.native = decide (r.key ∈ (run env folder).nativeKeys)) := by
  rw [run_ok env folder names h1 h2]
  constructor
  · intro fk
    show fk ∈ (pass1Of env folder names).nativeKeys ↔ _
    unfold pass1Of
    rw [pass1_nativeKeys env folder names (p1Init folder) fk]
    have : fk ∉ (p1Init folder).nativeKeys := by simp [p1Init]
    tauto
  · intro r hr
    have hr2 : r ∈ (pass2Of env folder names).results := hr
    unfold pass2Of pass2 at hr2
    rcases pass2_results_spec env (pass1Of env folder names).fmap
        (pass1Of env folder names).nativeKeys (mergedDirPath folder)
        (pass1Of env folder names).families.length
        (pass1Of env folder names).families _ r hr2 with h | ⟨fam, _, hspec⟩
    · simp at h
    · show r.native = decide (r.key ∈ (pass1Of env folder names).nativeKeys)
      rw [hspec.1, hspec.2.2.1]

/-- Witness for C10: family `A` (whose native member synthesized) is
flagged, family `B` (whose sole non-PDF member failed synthesis) is not,
and a concrete Pass-2 record's native field agrees with the flag. -/
theorem C10_native_flag_witness :
    "A" ∈ (run { okEnv ["A.pdf", "A.msg", "B.msg"] with
        synth := fun f => if f = "B.msg" then none else some ("tmpph_" ++ f) }
        "src").nativeKeys
    ∧ "B" ∉ (run { okEnv ["A.pdf", "A.msg", "B.msg"] with
        synth := fun f => if f = "B.msg" then none else some ("tmpph_" ++ f) }
        "src").nativeKeys
    ∧ ({ key := "A", sorted := ["A.pdf", "A.msg"], count := 2, pages := 2, native := true,
          attempted := some "src/Merged Output/Merged PDFs/A.pdf",
          saved := true } : FamResult).native
        = decide (("A" : String) ∈ (run { okEnv ["A.pdf", "A.msg", "B.msg"] with
            synth := fun f => if f = "B.msg" then none else some ("tmpph_" ++ f) }
            "src").nativeKeys) := by
  have h := C10_native_flag { okEnv ["A.pdf", "A.msg", "B.msg"] with
      synth := fun f => if f = "B.msg" then none else some ("tmpph_" ++ f) }
    "src" ["A.pdf", "A.msg", "B.msg"] rfl rfl
  refine ⟨(h.1 "A").mpr ⟨"A.msg", by decide, rfl, by decide, by decide, by decide, rfl⟩,
    fun hb => absurd ((h.1 "B").mp hb) (by decide), ?_⟩
  exact h.2
    { key := "A", sorted := ["A.pdf", "A.msg"], count := 2, pages := 2, native := true,
      attempted := some "src/Merged Output/Merged PDFs/A.pdf", saved := true } (by decide)

/-! ## C6: the QC aggregates -/

theorem foldr_max_init (l : List Nat) (a : Nat) :
    l.foldr max a = max (l.foldr max 0) a := by
  induction l with
  | nil => simp
  | cons c l ih =>
    show max c (l.foldr max a) = max (max c (l.foldr max 0)) a
    rw [ih]
    omega

theorem maxCountOf_append (rs : List FamResult) (r : FamResult) :
    maxCountOf (rs ++ [r]) = max (maxCountOf rs) r.count := by
  unfold maxCountOf
  rw [List.map_append, List.foldr_append]
  show (rs.map FamResult.count).foldr max (max r.count 0) = _
  rw [foldr_max_init]
  omega

theorem le_maxCountOf (rs : List FamResult) : ∀ r ∈ rs, r.count ≤ maxCountOf rs := by
  induction rs with
  | nil => intro r h; cases h
  | cons x rs ih =>
    intro r h
    have hx : maxCountOf (x :: rs) = max x.count (maxCountOf rs) := rfl
    rcases List.mem_cons.mp h with rfl | h'
    · rw [hx]; omega
    · have := ih r h'
      rw [hx]; omega

theorem maxCountOf_attained (rs : List FamResult) (h : maxCountOf rs ≠ 0) :
    ∃ r ∈ rs, r.count = maxCountOf rs := by
  induction rs with
  | nil => exact absurd rfl h
  | cons x rs ih =>
    have hx : maxCountOf (x :: rs) = max x.count (maxCountOf rs) := rfl
    by_cases hc : maxCountOf rs ≤ x.count
    · refine ⟨x, List.mem_cons_self _ _, ?_⟩
      rw [hx]; omega
    · have hne : maxCountOf rs ≠ 0 := by
        intro h0
        rw [hx] at h
        omega
      rcases ih hne with ⟨r, hr, he⟩
      refine ⟨r, List.mem_cons_of_mem _ hr, ?_⟩
      rw [hx]; omega

theorem find?_append_left {α : Type} {p : α → Bool} {l₁ l₂ : List α}
    (h : (l₁.find? p).isSome = true) : (l₁ ++ l₂).find? p = l₁.find? p := by
  rw [List.find?_append]
  cases hf : l₁.find? p with
  | none => rw [hf] at h; simp at h
  | some x => simp

theorem find?_append_singleton_false {α : Type} {p : α → Bool} {l : List α} {x : α}
    (h : p x = false) : (l ++ [x]).find? p = l.find? p := by
  rw [List.find?_append]
  cases hf : l.find? p with
  | some y => simp
  | none => simp [List.find?_cons, h]

theorem pass2Step_aggInv (env : Env) (fmap : List (String × String)) (nk : List String)
    (dir : String) (tot : Nat) (st : P2) (fam : String × List String)
    (hsave : ∀ p, env.saveOk p = true) (h : aggInv st) :
    aggInv (pass2Step env fmap nk dir tot st fam) := by
  obtain ⟨hmax, hlarge, hfn, hatt⟩ := h
  simp only [pass2Step]
  by_cases hv : fam.2.filter (fun f => (lookupAssoc fmap f).isSome) = []
  · rw [if_pos hv]
    exact ⟨hmax, hlarge, hfn, hatt⟩
  · rw [if_neg hv]
    set sortedFiles := sortFamily (fam.2.filter (fun f => (lookupAssoc fmap f).isSome))
      with hsf
    set acc := sortedFiles.foldl (memberStep env fmap)
      { pages := 0, count := 0,
        log := st.log ++ ["Processing family: " ++ fam.1 ++ ". Files to merge (in order): " ++
          String.intercalate ", " sortedFiles] } with hacc
    set outPath := dir ++ "/" ++ ((splitext (sortedFiles.headD "")).1 ++ ".pdf") with hout
    by_cases hc : 0 < acc.count
    · rw [if_pos hc, if_pos (hsave outPath)]
      have hfnQ : ∀ (fn' : Option String),
          (fn' = if (decide (fam.1 ∈ nk) && st.firstNative.isNone) = true
            then some outPath else st.firstNative) →
          fn' = ((st.results ++
              [(⟨fam.1, sortedFiles, acc.count, acc.pages, decide (fam.1 ∈ nk),
                some outPath, true⟩ : FamResult)]).find? qNative).bind FamResult.attempted := by
        intro fn' hfn'
        by_cases hdn : decide (fam.1 ∈ nk) = false
        · have hq : qNative (⟨fam.1, sortedFiles, acc.count, acc.pages,
              decide (fam.1 ∈ nk), some outPath, true⟩ : FamResult) = false := by
            show (decide (fam.1 ∈ nk) && decide (0 < acc.count)) = false
            rw [hdn]
            rfl
          rw [find?_append_singleton_false hq, hfn', hdn]
          simpa using hfn
        · have hdn' : decide (fam.1 ∈ nk) = true := by
            cases hdd : decide (fam.1 ∈ nk)
            · exact absurd hdd hdn
            · rfl
          by_cases hnone : st.firstNative.isNone = true
          · have hfind : st.results.find? qNative = none := by
              cases hf : st.results.find? qNative with
              | none => rfl
              | some y =>
                have hy := List.find?_some hf
                have hymem := List.mem_of_find?_eq_some hf
                simp only [qNative, Bool.and_eq_true] at hy
                have hyc : 0 < y.count := of_decide_eq_true hy.2
                have hys := hatt y hymem hyc
                rw [hf, Option.some_bind] at hfn
                cases hv2 : y.attempted with
                | none => rw [hv2] at hys; simp at hys
                | some z =>
                  rw [hv2] at hfn
                  rw [Option.isNone_iff_eq_none.mp hnone] at hfn
                  simp at hfn
            rw [List.find?_append, hfind, Option.none_or]
            have hq : qNative (⟨fam.1, sortedFiles, acc.count, acc.pages,
                decide (fam.1 ∈ nk), some outPath, true⟩ : FamResult) = true := by
              show (decide (fam.1 ∈ nk) && decide (0 < acc.count)) = true
              rw [hdn', decide_eq_true hc]
              rfl
            rw [List.find?_cons_of_pos _ hq, hfn']
            rw [if_pos (by rw [hdn', hnone]; rfl)]
            rfl
          · have hfindSome : (st.results.find? qNative).isSome = true := by
              cases hf : st.results.find? qNative with
              | none =>
                rw [hf, Option.none_bind] at hfn
                exact absurd (show st.firstNative.isNone = true by rw [hfn]; rfl) hnone
              | some y => rfl
            rw [find?_append_left hfindSome, hfn']
            rw [if_neg (by rw [hdn']; simpa using hnone)]
            exact hfn
      have hattQ : ∀ r' ∈ st.results ++
          [(⟨fam.1, sortedFiles, acc.count, acc.pages, decide (fam.1 ∈ nk),
            some outPath, true⟩ : FamResult)], 0 < r'.count → r'.attempted.isSome = true := by
        intro r' hr'
        rcases List.mem_append.mp hr' with hr' | hr'
        · exact hatt r' hr'
        · rw [List.mem_singleton.mp hr']
          intro _
          rfl
      have hmaxQ : ∀ (m' : Nat), (m' = if st.maxCount < acc.count then acc.count
            else st.maxCount) →
          m' = maxCountOf (st.results ++
            [(⟨fam.1, sortedFiles, acc.count, acc.pages, decide (fam.1 ∈ nk),
              some outPath, true⟩ : FamResult)]) := by
        intro m' hm'
        rw [maxCountOf_append]
        show m' = max (maxCountOf st.results) acc.count
        by_cases hlt : st.maxCount < acc.count
        · rw [if_pos hlt] at hm'
          omega
        · rw [if_neg hlt] at hm'
          omega
      have hlargeQ : ∀ (lg : Option String),
          (lg = if st.maxCount < acc.count then some outPath else st.largest) →
          lg = (if maxCountOf (st.results ++
              [(⟨fam.1, sortedFiles, acc.count, acc.pages, decide (fam.1 ∈ nk),
                some outPath, true⟩ : FamResult)]) = 0 then none
            else ((st.results ++
              [(⟨fam.1, sortedFiles, acc.count, acc.pages, decide (fam.1 ∈ nk),
                some outPath, true⟩ : FamResult)]).find? (qMax (maxCountOf (st.results ++
              [(⟨fam.1, sortedFiles, acc.count, acc.pages, decide (fam.1 ∈ nk),
                some outPath, true⟩ : FamResult)])))).bind FamResult.attempted) := by
        intro lg hlg
        rw [maxCountOf_append]
        by_cases hlt : st.maxCount < acc.count
        · rw [if_pos hlt] at hlg
          have hMeq : max (maxCountOf st.results) acc.count = acc.count := by omega
          rw [hMeq, if_neg (by omega)]
          have hnone : st.results.find? (qMax acc.count) = none := by
            rw [List.find?_eq_none]
            intro x hx
            have := le_maxCountOf st.results x hx
            simp only [qMax, decide_eq_true_eq]
            omega
          rw [List.find?_append, hnone, Option.none_or]
          have hq : qMax acc.count (⟨fam.1, sortedFiles, acc.count, acc.pages,
              decide (fam.1 ∈ nk), some outPath, true⟩ : FamResult) = true := by
            simp [qMax]
          rw [List.find?_cons_of_pos _ hq, hlg]
          rfl
        · rw [if_neg hlt] at hlg
          have hMeq : max (maxCountOf st.results) acc.count = maxCountOf st.results := by
            omega
          have hM0 : maxCountOf st.results ≠ 0 := by omega
          have hfindMax : (st.results.find? (qMax (maxCountOf st.results))).isSome = true := by
            rcases maxCountOf_attained st.results hM0 with ⟨x, hx, he⟩
            exact List.find?_isSome.mpr ⟨x, hx, by simp [qMax, he]⟩
          rw [hMeq, if_neg hM0, find?_append_left hfindMax, hlg]
          rw [if_neg hM0] at hlarge
          exact hlarge
      by_cases hlt : st.maxCount < acc.count
      · rw [if_pos hlt]
        by_cases hnat : (decide (fam.1 ∈ nk) && st.firstNative.isNone) = true
        · rw [if_pos hnat]
          exact ⟨hmaxQ _ (by rw [if_pos hlt]), hlargeQ _ (by rw [if_pos hlt]),
            hfnQ _ (by rw [if_pos hnat]), hattQ⟩
        · rw [if_neg hnat]
          exact ⟨hmaxQ _ (by rw [if_pos hlt]), hlargeQ _ (by rw [if_pos hlt]),
            hfnQ _ (by rw [if_neg hnat]), hattQ⟩
      · rw [if_neg hlt]
        by_cases hnat : (decide (fam.1 ∈ nk) && st.firstNative.isNone) = true
        · rw [if_pos hnat]
          exact ⟨hmaxQ _ (by rw [if_neg hlt]), hlargeQ _ (by rw [if_neg hlt]),
            hfnQ _ (by rw [if_pos hnat]), hattQ⟩
        · rw [if_neg hnat]
          exact ⟨hmaxQ _ (by rw [if_neg hlt]), hlargeQ _ (by rw [if_neg hlt]),
            hfnQ _ (by rw [if_neg hnat]), hattQ⟩
    · rw [if_neg hc]
      have hc0 : acc.count = 0 := by omega
      refine ⟨?_, ?_, ?_, ?_⟩
      · show st.maxCount = maxCountOf (st.results ++ [_])
        rw [maxCountOf_append]
        show st.maxCount = max (maxCountOf st.results) acc.count
        omega
      · show st.largest = _
        rw [maxCountOf_append]
        have hMeq : max (maxCountOf st.results) acc.count = maxCountOf st.results := by
          omega
        rw [hMeq]
        by_cases hM0 : maxCountOf st.results = 0
        · rw [if_pos hM0]
          rw [if_pos hM0] at hlarge
          exact hlarge
        · rw [if_neg hM0]
          have hq : qMax (maxCountOf st.results)
              (⟨fam.1, sortedFiles, acc.count, acc.pages, decide (fam.1 ∈ nk),
                none, false⟩ : FamResult) = false := by
            simp only [qMax, decide_eq_false_iff_not]
            show ¬ acc.count = maxCountOf st.results
            omega
          rw [find?_append_singleton_false hq]
          rw [if_neg hM0] at hlarge
          exact hlarge
      · show st.firstNative = _
        have hq : qNative (⟨fam.1, sortedFiles, acc.count, acc.pages,
            decide (fam.1 ∈ nk), none, false⟩ : FamResult) = false := by
          show (decide (fam.1 ∈ nk) && decide (0 < acc.count)) = false
          rw [hc0]
          simp
        rw [find?_append_singleton_false hq]
        exact hfn
      · intro r' hr'
        rcases List.mem_append.mp hr' with hr' | hr'
        · exact hatt r' hr'
        · rw [List.mem_singleton.mp hr']
          intro h0
          exact absurd (show 0 < acc.count from h0) (by omega)

theorem pass2_aggInv (env : Env) (fmap : List (String × String)) (nk : List String)
    (dir : String) (tot : Nat) (hsave : ∀ p, env.saveOk p = true) :
    ∀ (fams : List (String × List String)) (st : P2), aggInv st →
      aggInv (fams.foldl (pass2Step env fmap nk dir tot) st) := by
  intro fams
  induction fams with
  | nil => intro st h; exact h
  | cons f fs ih =>
    intro st h
    rw [List.foldl_cons]
    exact ih _ (pass2Step_aggInv env fmap nk dir tot st f hsave h)

/-- C6: when every save succeeds, the remembered largest-family output is
the output of the first Pass-2 record (in iteration order) attaining the
maximum count of successfully appended members — ties broken in favour of
the family encountered first — and the remembered first-native output is
that of the first record whose native flag is true and which merged at
least one member, even if it is not the largest. -/
theorem C6_qc_selection (env : Env) (folder : String) (names : List String)
    (h1 : env.mkdirsOk = true) (h2 : env.listing = some names)
    (hsave : ∀ p, env.saveOk p = true) :
    (run env folder).largest
        = (if maxCountOf (run env folder).famResults = 0 then none
          else ((run env folder).famResults.find?
              (qMax (maxCountOf (run env folder).famResults))).bind FamResult.attempted)
    ∧ (run env folder).firstNative
        = ((run env folder).famResults.find? qNative).bind FamResult.attempted := by
  rw [run_ok env folder names h1 h2]
  have hinit : aggInv
      { log := (pass1Of env folder names).log ++
          ["Pass 1 completed.", "Starting Pass 2: Merging PDF families using pikepdf..."],
        results := [], maxCount := 0, largest := none, firstNative := none,
        trace := [], processed := 0, progress := [] } := by
    refine ⟨rfl, ?_, rfl, ?_⟩
    · simp [maxCountOf]
    · intro r h; cases h
  have h := pass2_aggInv env (pass1Of env folder names).fmap
    (pass1Of env folder names).nativeKeys (mergedDirPath folder)
    (pass1Of env folder names).families.length hsave
    (pass1Of env folder names).families _ hinit
  exact ⟨h.2.1, h.2.2.1⟩

/-- Witness for C6 at a batch with merged-member counts `[1, 2, 1]` whose
native family is not the largest. -/
theorem C6_qc_selection_witness :
    (run (okEnv ["A.pdf", "B.pdf", "B.0001.pdf", "C.msg"]) "src").largest
        = (if maxCountOf (run (okEnv ["A.pdf", "B.pdf", "B.0001.pdf", "C.msg"])
              "src").famResults = 0 then none
          else ((run (okEnv ["A.pdf", "B.pdf", "B.0001.pdf", "C.msg"])
              "src").famResults.find?
              (qMax (maxCountOf
                (run (okEnv ["A.pdf", "B.pdf", "B.0001.pdf", "C.msg"]) "src").famResults))).bind
            FamResult.attempted)
    ∧ (run (okEnv ["A.pdf", "B.pdf", "B.0001.pdf", "C.msg"]) "src").firstNative
        = ((run (okEnv ["A.pdf", "B.pdf", "B.0001.pdf", "C.msg"]) "src").famResults.find?
            qNative).bind FamResult.attempted :=
  C6_qc_selection (okEnv ["A.pdf", "B.pdf", "B.0001.pdf", "C.msg"]) "src"
    ["A.pdf", "B.pdf", "B.0001.pdf", "C.msg"] rfl rfl (fun _ => rfl)

end EFPM
